import Mathlib

/-
Verification of the UDP packet forwarder (src/solutions/forward.c).

The development shallowly embeds the forwarder's core: the packet
classifier `pkt_select`, the netmap ring model (`NetmapSlot`,
`NetmapRing`, `nm_ring_space`, `nm_ring_next`), and the transfer engine
`forward_pkts` (outer ring walk plus inner per-packet loop), together
with the poll-dispatch step of `main_loop`.  Frame buffers are lists of
bytes (`List Nat`, each entry < 256 in intended states), the shared
netmap buffer pool is a list of such buffers indexed by `buf_idx`, and
the two global counters `tot` and `fwd` are threaded through the state.
-/

/-! ## Byte buffers and the packet classifier (forward.c lines 52-81) -/

def ETHERTYPE_IP : Nat := 0x0800

def IPPROTO_UDP : Nat := 17

def NS_BUF_CHANGED : Nat := 1

/-- Read the byte at offset `i` of a frame buffer (0 past the end,
modelling the fixed-size netmap buffer's zeroed tail). -/
def bufByte (buf : List Nat) (i : Nat) : Nat := buf.getD i 0

/-- `pkt_select buf udp_port` (forward.c lines 52-81).  The C code reads
the 16-bit `ether_type` field at byte offsets 12-13, the IP protocol
byte at offset 23 (= 14 + 9), and the UDP destination port at offsets
36-37 (= 14 + 20 + 2); the two 16-bit fields are stored in network byte
order, so the comparisons against `htons(ETHERTYPE_IP)` and
`htons(udp_port)` become byte-wise comparisons against the big-endian
bytes of the constants. -/
def pkt_select (buf : List Nat) (udp_port : Nat) : Bool :=
  if udp_port = 0 then
    true
  else if ¬ (bufByte buf 12 = ETHERTYPE_IP / 256 % 256 ∧
             bufByte buf 13 = ETHERTYPE_IP % 256) then
    false
  else if bufByte buf 23 ≠ IPPROTO_UDP then
    false
  else if ¬ (bufByte buf 36 = udp_port / 256 % 256 ∧
             bufByte buf 37 = udp_port % 256) then
    false
  else
    true

/-! ## Netmap rings -/

structure NetmapSlot where
  buf_idx : Nat
  len : Nat
  flags : Nat
deriving DecidableEq, Repr

instance : Inhabited NetmapSlot := ⟨⟨0, 0, 0⟩⟩

structure NetmapRing where
  num_slots : Nat
  head : Nat
  cur : Nat
  tail : Nat
  slot : List NetmapSlot
deriving DecidableEq, Repr

instance : Inhabited NetmapRing := ⟨⟨0, 0, 0, 0, []⟩⟩

/-- Ring occupancy as a function of the cursor fields:
`ret = tail - head; if (ret < 0) ret += num_slots` (netmap_user.h). -/
def spaceOf (num h t : Nat) : Nat :=
  if h ≤ t then t - h else t + num - h

/-- `nm_ring_space` from netmap_user.h. -/
def nm_ring_space (r : NetmapRing) : Nat :=
  spaceOf r.num_slots r.head r.tail

/-- Circular successor of a slot index:
`(i + 1 == num_slots) ? 0 : i + 1`. -/
def ringNext (num i : Nat) : Nat :=
  if i + 1 = num then 0 else i + 1

/-- `nm_ring_next` from netmap_user.h. -/
def nm_ring_next (r : NetmapRing) (i : Nat) : Nat :=
  ringNext r.num_slots i

/-! ## The transfer engine (forward.c lines 84-142) -/

/-- `memcpy(txbuf, rxbuf, len)` on whole netmap buffers: the first `len`
bytes of the destination buffer are replaced by the source's, the rest
of the destination (up to its fixed size) is kept. -/
def memcpyBytes (dst src : List Nat) (len : Nat) : List Nat :=
  (List.range dst.length).map fun o =>
    if o < len then bufByte src o else bufByte dst o

/-- The state mutated by the inner per-packet loop of `forward_pkts`
(lines 112-137): the two slot arrays, the local cursors `rxhead` and
`txhead`, the shared buffer pool, and the global counters. -/
structure LoopState where
  rxslots : List NetmapSlot
  txslots : List NetmapSlot
  rxhead : Nat
  txhead : Nat
  pool : List (List Nat)
  tot : Nat
  fwd : Nat
deriving DecidableEq, Repr

/-- The accept action of the inner loop (forward.c lines 122-136):
copy the length into the transmit slot; in zero-copy mode exchange the
two slots' buffer handles and set `NS_BUF_CHANGED` on both, otherwise
copy the payload bytes; then advance the transmit cursor and bump the
forwarded counter.  The whole exchange is a single state update. -/
def acceptPkt (txnum : Nat) (zc : Bool) (s : LoopState) : LoopState :=
  let rs := s.rxslots.getD s.rxhead default
  let ts := s.txslots.getD s.txhead default
  if zc then
    { s with
      txslots := s.txslots.set s.txhead
        { ts with len := rs.len, buf_idx := rs.buf_idx,
                  flags := ts.flags ||| NS_BUF_CHANGED },
      rxslots := s.rxslots.set s.rxhead
        { rs with buf_idx := ts.buf_idx,
                  flags := rs.flags ||| NS_BUF_CHANGED },
      txhead := ringNext txnum s.txhead,
      fwd := s.fwd + 1 }
  else
    { s with
      txslots := s.txslots.set s.txhead { ts with len := rs.len },
      pool := s.pool.set ts.buf_idx
        (memcpyBytes (s.pool.getD ts.buf_idx []) (s.pool.getD rs.buf_idx [])
          rs.len),
      txhead := ringNext txnum s.txhead,
      fwd := s.fwd + 1 }

/-- The inner loop of `forward_pkts` (lines 112-137):
`for (; nrx > 0 && ntx > 0; nrx--, rxhead = nm_ring_next(..), tot++)`.
Rejected packets only advance the receive cursor and `tot`; accepted
packets additionally run `acceptPkt`. -/
def innerLoop (udp_port : Nat) (zc : Bool) (rxnum txnum : Nat) :
    Nat → Nat → LoopState → LoopState
  | 0, _, s => s
  | _ + 1, 0, s => s
  | nrx + 1, ntx + 1, s =>
    if pkt_select (s.pool.getD ((s.rxslots.getD s.rxhead default).buf_idx) [])
        udp_port then
      innerLoop udp_port zc rxnum txnum nrx ntx
        { acceptPkt txnum zc s with
          rxhead := ringNext rxnum s.rxhead, tot := s.tot + 1 }
    else
      innerLoop udp_port zc rxnum txnum nrx (ntx + 1)
        { s with rxhead := ringNext rxnum s.rxhead, tot := s.tot + 1 }

/-- The state acted on by one call of `forward_pkts`: the source port's
receive rings, the destination port's transmit rings, the buffer pool
and the counters.  Ring index 0 of each list plays the role of
`first_rx_ring` / `first_tx_ring`. -/
structure FwdState where
  rxrings : List NetmapRing
  txrings : List NetmapRing
  pool : List (List Nat)
  tot : Nat
  fwd : Nat
deriving DecidableEq, Repr

/-- The inner loop of an outer-loop pass, started from the two rings'
`head` cursors and their current occupancies (forward.c lines 99-137). -/
def pairRun (udp_port : Nat) (zc : Bool) (st : FwdState) (si di : Nat) :
    LoopState :=
  innerLoop udp_port zc (st.rxrings.getD si default).num_slots
    (st.txrings.getD di default).num_slots
    (nm_ring_space (st.rxrings.getD si default))
    (nm_ring_space (st.txrings.getD di default))
    ⟨(st.rxrings.getD si default).slot, (st.txrings.getD di default).slot,
      (st.rxrings.getD si default).head, (st.txrings.getD di default).head,
      st.pool, st.tot, st.fwd⟩

/-- One pass of the outer loop body for a ring pair with work on both
sides (forward.c lines 110-140): run the inner loop and commit the
final cursors with `rxring->head = rxring->cur = rxhead;
txring->head = txring->cur = txhead`. -/
def commitPair (udp_port : Nat) (zc : Bool) (st : FwdState) (si di : Nat) :
    FwdState :=
  { st with
    rxrings := st.rxrings.set si
      { st.rxrings.getD si default with
        slot := (pairRun udp_port zc st si di).rxslots,
        head := (pairRun udp_port zc st si di).rxhead,
        cur := (pairRun udp_port zc st si di).rxhead },
    txrings := st.txrings.set di
      { st.txrings.getD di default with
        slot := (pairRun udp_port zc st si di).txslots,
        head := (pairRun udp_port zc st si di).txhead,
        cur := (pairRun udp_port zc st si di).txhead },
    pool := (pairRun udp_port zc st si di).pool,
    tot := (pairRun udp_port zc st si di).tot,
    fwd := (pairRun udp_port zc st si di).fwd }

/-- The outer loop of `forward_pkts` (lines 91-141), with explicit fuel:
while both ring indices are in range, skip an exhausted receive ring
(`si++`), skip a full transmit ring (`di++`), or process the pair.
`none` means the fuel ran out before the loop exited. -/
def outerLoop (udp_port : Nat) (zc : Bool) :
    Nat → Nat → Nat → FwdState → Option FwdState
  | 0, _, _, _ => none
  | fuel + 1, si, di, st =>
    if si < st.rxrings.length ∧ di < st.txrings.length then
      if nm_ring_space (st.rxrings.getD si default) = 0 then
        outerLoop udp_port zc fuel (si + 1) di st
      else if nm_ring_space (st.txrings.getD di default) = 0 then
        outerLoop udp_port zc fuel si (di + 1) st
      else
        outerLoop udp_port zc fuel si di (commitPair udp_port zc st si di)
    else
      some st

/-- Total occupancy of the receive rings. -/
def totalRxSpace (st : FwdState) : Nat :=
  (st.rxrings.map nm_ring_space).sum

/-- Fuel that always suffices for the outer loop (proved below). -/
def fwdFuel (st : FwdState) : Nat :=
  st.rxrings.length + st.txrings.length + totalRxSpace st + 1

/-- `forward_pkts(src, dst, udp_port, zerocopy)` (forward.c lines
84-142); the fallback for exhausted fuel is never taken on well-formed
rings. -/
def forward_pkts (st : FwdState) (udp_port : Nat) (zc : Bool) : FwdState :=
  (outerLoop udp_port zc (fwdFuel st) 0 0 st).getD st

/-- A sequence of transfer-engine invocations, threading the state (and
with it the process-wide counters) through each call. -/
def runSeq : List (Nat × Bool) → FwdState → FwdState
  | [], st => st
  | pz :: rest, st => runSeq rest (forward_pkts st pz.1 pz.2)

/-! ## The session loop's poll dispatch (forward.c lines 181-223) -/

/-- Two-port system state for `main_loop`: each port has receive and
transmit rings; pool and counters are process wide. -/
structure SysState where
  rx1 : List NetmapRing
  tx1 : List NetmapRing
  rx2 : List NetmapRing
  tx2 : List NetmapRing
  pool : List (List Nat)
  tot : Nat
  fwd : Nat
deriving DecidableEq, Repr

/-- `forward_pkts(nmd_one, nmd_two, ...); forward_pkts(nmd_two, nmd_one, ...)`
(forward.c lines 220-221). -/
def forwardBoth (udp_port : Nat) (zc : Bool) (s : SysState) : SysState :=
  let f1 := forward_pkts ⟨s.rx1, s.tx2, s.pool, s.tot, s.fwd⟩ udp_port zc
  let f2 := forward_pkts ⟨s.rx2, s.tx1, f1.pool, f1.tot, f1.fwd⟩ udp_port zc
  ⟨f1.rxrings, f2.txrings, f2.rxrings, f1.txrings, f2.pool, f2.tot, f2.fwd⟩

/-- The poll-result dispatch of one `main_loop` iteration (forward.c
lines 211-221).  Returns the new state, whether an error was reported
(`perror`), and whether the two forwarding calls ran.  A negative poll
return reports the error and falls through to forwarding; a zero return
(timeout) `continue`s back to the loop head without forwarding. -/
def main_loop_iter (ret : Int) (udp_port : Nat) (zc : Bool) (s : SysState) :
    SysState × Bool × Bool :=
  if ret < 0 then
    (forwardBoth udp_port zc s, true, true)
  else if ret = 0 then
    (s, false, false)
  else
    (forwardBoth udp_port zc s, false, true)

/-! ## Observables, well-formedness predicates -/

/-- The bytes of a packet readable through a slot: the first `len` bytes
of the pool buffer the slot's handle resolves to. -/
def slotReadable (pool : List (List Nat)) (s : NetmapSlot) : List Nat :=
  (List.range s.len).map (bufByte (pool.getD s.buf_idx []))

/-- Cursor observables: head and cur of every ring. -/
def ringCursors (st : FwdState) : List (Nat × Nat) :=
  (st.rxrings ++ st.txrings).map fun r => (r.head, r.cur)

/-- Transmit-side observables: per transmit slot, the recorded length
and the packet bytes readable through the slot's buffer. -/
def txObservable (st : FwdState) : List (List (Nat × List Nat)) :=
  st.txrings.map fun r => r.slot.map fun s => (s.len, slotReadable st.pool s)

/-- The externally observable part of a transfer-engine state: the
transmit slots' lengths and readable bytes, every ring's cursors, and
the two counters. -/
def observables (st : FwdState) :
    List (List (Nat × List Nat)) × List (Nat × Nat) × Nat × Nat :=
  (txObservable st, ringCursors st, st.tot, st.fwd)

/-- Netmap's ring invariant on the cursor fields. -/
def RingWF (r : NetmapRing) : Prop :=
  r.head < r.num_slots ∧ r.tail < r.num_slots

instance (r : NetmapRing) : Decidable (RingWF r) := by
  unfold RingWF; infer_instance

/-- All rings of a transfer-engine state satisfy the ring invariant. -/
def RingsWF (st : FwdState) : Prop :=
  ∀ r ∈ st.rxrings ++ st.txrings, RingWF r

instance (st : FwdState) : Decidable (RingsWF st) := by
  unfold RingsWF; infer_instance

/-- Every pool buffer has the fixed netmap buffer size `BS`. -/
def poolUniform (BS : Nat) (pool : List (List Nat)) : Prop :=
  ∀ b ∈ pool, b.length = BS

instance (BS : Nat) (pool : List (List Nat)) : Decidable (poolUniform BS pool) := by
  unfold poolUniform; infer_instance

/-- Full per-ring well-formedness: valid cursors, a slot array of the
declared size, and slots whose buffer handles resolve into the pool and
whose lengths fit in a buffer. -/
def RingGood (pool : List (List Nat)) (BS : Nat) (r : NetmapRing) : Prop :=
  r.head < r.num_slots ∧ r.tail < r.num_slots ∧
  r.slot.length = r.num_slots ∧
  ∀ s ∈ r.slot, s.buf_idx < pool.length ∧ s.len ≤ BS

instance (pool : List (List Nat)) (BS : Nat) (r : NetmapRing) :
    Decidable (RingGood pool BS r) := by
  unfold RingGood; infer_instance

/-- All buffer handles appearing in the state's slots, in order. -/
def allBufIdx (st : FwdState) : List Nat :=
  ((st.rxrings ++ st.txrings).map fun r =>
    r.slot.map NetmapSlot.buf_idx).flatten

/-- A well-formed netmap state: uniform buffer sizes, good rings, and
pairwise distinct buffer handles (every slot owns its own buffer). -/
def GoodState (BS : Nat) (st : FwdState) : Prop :=
  poolUniform BS st.pool ∧
  (∀ r ∈ st.rxrings ++ st.txrings, RingGood st.pool BS r) ∧
  (allBufIdx st).Nodup

instance (BS : Nat) (st : FwdState) : Decidable (GoodState BS st) := by
  unfold GoodState; infer_instance

/-! ## Concrete example states -/

/-- An all-zero netmap buffer. -/
def zeroBuf : List Nat := List.replicate 38 0

/-- A frame accepted by filter port 53: ether_type bytes 0x08 0x00 at
offsets 12-13, protocol 17 at offset 23, destination port bytes 0 53 at
offsets 36-37. -/
def okBuf : List Nat :=
  List.replicate 12 0 ++ [8, 0] ++ List.replicate 9 0 ++ [17] ++
  List.replicate 12 0 ++ [0, 53]

/-- A UDP frame to port 80: rejected by filter port 53. -/
def badBuf : List Nat :=
  List.replicate 12 0 ++ [8, 0] ++ List.replicate 9 0 ++ [17] ++
  List.replicate 12 0 ++ [0, 80]

/-- Scenario C pool: packet buffers 0-9 hold the queued frames
(accept, accept, reject, accept, reject, accept, accept, accept,
accept, accept for filter 53), buffers 10-25 back the transmit slots. -/
def c3pool : List (List Nat) :=
  [okBuf, okBuf, badBuf, okBuf, badBuf, okBuf, okBuf, okBuf, okBuf, okBuf] ++
  List.replicate 16 zeroBuf

/-- Scenario C receive ring: 16 slots, 10 queued packets. -/
def c3rx : NetmapRing :=
  ⟨16, 0, 0, 10, (List.range 16).map fun i => ⟨i, 38, 0⟩⟩

/-- Scenario C transmit ring: 16 slots, 4 free. -/
def c3tx : NetmapRing :=
  ⟨16, 0, 0, 4, (List.range 16).map fun i => ⟨10 + i, 0, 0⟩⟩

/-- Scenario C initial state. -/
def c3st : FwdState := ⟨[c3rx], [c3tx], c3pool, 0, 0⟩

/-- Aliased state: transmit slot 0 shares buffer 1 with receive slot 1. -/
def aliasSt : FwdState :=
  ⟨[⟨4, 0, 0, 2, [⟨0, 38, 0⟩, ⟨1, 38, 0⟩, ⟨2, 0, 0⟩, ⟨3, 0, 0⟩]⟩],
   [⟨4, 0, 0, 2, [⟨1, 0, 0⟩, ⟨4, 0, 0⟩, ⟨5, 0, 0⟩, ⟨6, 0, 0⟩]⟩],
   [okBuf, badBuf, zeroBuf, zeroBuf, zeroBuf, zeroBuf, zeroBuf], 0, 0⟩

/-- A well-formed two-packet state with pairwise distinct buffers. -/
def goodSt : FwdState :=
  ⟨[⟨4, 0, 0, 2, [⟨0, 38, 0⟩, ⟨1, 38, 0⟩, ⟨2, 0, 0⟩, ⟨3, 0, 0⟩]⟩],
   [⟨4, 0, 0, 2, [⟨4, 0, 0⟩, ⟨5, 0, 0⟩, ⟨6, 0, 0⟩, ⟨7, 0, 0⟩]⟩],
   [okBuf, badBuf, zeroBuf, zeroBuf, zeroBuf, zeroBuf, zeroBuf, zeroBuf],
   0, 0⟩

/-- A state whose receive ring is empty (head = tail). -/
def idleSt : FwdState :=
  ⟨[⟨4, 1, 1, 1, [⟨0, 0, 0⟩, ⟨1, 0, 0⟩, ⟨2, 0, 0⟩, ⟨3, 0, 0⟩]⟩],
   [⟨4, 0, 0, 2, [⟨4, 0, 0⟩, ⟨5, 0, 0⟩, ⟨6, 0, 0⟩, ⟨7, 0, 0⟩]⟩],
   [zeroBuf, zeroBuf, zeroBuf, zeroBuf, zeroBuf, zeroBuf, zeroBuf, zeroBuf],
   0, 0⟩

/-- A truncated frame: the accept-pattern bytes are present in the
buffer, but the captured length is only 10 bytes. -/
def truncSt : FwdState :=
  ⟨[⟨4, 0, 0, 1, [⟨0, 10, 0⟩, ⟨1, 0, 0⟩, ⟨2, 0, 0⟩, ⟨3, 0, 0⟩]⟩],
   [⟨4, 0, 0, 2, [⟨4, 0, 0⟩, ⟨5, 0, 0⟩, ⟨6, 0, 0⟩, ⟨7, 0, 0⟩]⟩],
   [okBuf, badBuf, zeroBuf, zeroBuf, zeroBuf, zeroBuf, zeroBuf, zeroBuf],
   0, 0⟩

/-- A one-slot loop state for exercising `acceptPkt`. -/
def accSt : LoopState :=
  ⟨[⟨0, 38, 0⟩], [⟨1, 0, 0⟩], 0, 0, [okBuf, zeroBuf], 0, 0⟩

/-- The empty two-port system state. -/
def sys0 : SysState := ⟨[], [], [], [], [], 0, 0⟩

/-! ## Coupling relations for the zero-copy / copy-mode comparison

`InnerRel` relates the loop state of a zero-copy run (`a`) to the loop
state of a copy-mode run (`b`) started from the same well-formed state:
cursors and counters agree, slot lengths agree, the packet bytes
readable through each transmit slot agree, and the next `n` pending
receive slots still hold identical frame bytes; the copy-mode side
additionally keeps buffers well-sized and its (never-changing) buffer
handles pairwise distinct. -/

structure InnerRel (BS rxnum txnum n : Nat) (a b : LoopState) : Prop where
  hrx : a.rxhead = b.rxhead
  htx : a.txhead = b.txhead
  htot : a.tot = b.tot
  hfwd : a.fwd = b.fwd
  hrxlenA : a.rxslots.length = rxnum
  hrxlenB : b.rxslots.length = rxnum
  htxlenA : a.txslots.length = txnum
  htxlenB : b.txslots.length = txnum
  hheadrx : b.rxhead < rxnum
  hheadtx : b.txhead < txnum
  hn : n < rxnum
  hlen_rx : ∀ j, (a.rxslots.getD j default).len = (b.rxslots.getD j default).len
  hlen_tx : ∀ j, (a.txslots.getD j default).len = (b.txslots.getD j default).len
  hread : ∀ j, slotReadable a.pool (a.txslots.getD j default) =
    slotReadable b.pool (b.txslots.getD j default)
  hpend : ∀ k, k < n →
    a.pool.getD ((a.rxslots.getD ((b.rxhead + k) % rxnum) default).buf_idx) [] =
    b.pool.getD ((b.rxslots.getD ((b.rxhead + k) % rxnum) default).buf_idx) []
  hlenBS : ∀ j, (b.rxslots.getD j default).len ≤ BS
  hunifB : poolUniform BS b.pool
  hrangeB : ∀ s ∈ b.rxslots ++ b.txslots, s.buf_idx < b.pool.length
  hnodupB : ((b.rxslots ++ b.txslots).map NetmapSlot.buf_idx).Nodup

/-- The state-level coupling between a zero-copy run (`A`) and a
copy-mode run (`B`): counters and every ring's cursor geometry agree,
slot lengths and readable transmit bytes agree, pending receive frames
hold identical bytes, and the copy-mode side is well formed with
pairwise distinct buffer handles. -/
structure FwdRel (BS : Nat) (A B : FwdState) : Prop where
  htot : A.tot = B.tot
  hfwd : A.fwd = B.fwd
  hrxn : A.rxrings.length = B.rxrings.length
  htxn : A.txrings.length = B.txrings.length
  hrxnum : ∀ i, (A.rxrings.getD i default).num_slots =
    (B.rxrings.getD i default).num_slots
  hrxhead : ∀ i, (A.rxrings.getD i default).head =
    (B.rxrings.getD i default).head
  hrxcur : ∀ i, (A.rxrings.getD i default).cur =
    (B.rxrings.getD i default).cur
  hrxtail : ∀ i, (A.rxrings.getD i default).tail =
    (B.rxrings.getD i default).tail
  htxnum : ∀ i, (A.txrings.getD i default).num_slots =
    (B.txrings.getD i default).num_slots
  htxhead : ∀ i, (A.txrings.getD i default).head =
    (B.txrings.getD i default).head
  htxcur : ∀ i, (A.txrings.getD i default).cur =
    (B.txrings.getD i default).cur
  htxtail : ∀ i, (A.txrings.getD i default).tail =
    (B.txrings.getD i default).tail
  hshapeA : ∀ r ∈ A.rxrings ++ A.txrings, r.slot.length = r.num_slots ∧
    r.head < r.num_slots ∧ r.tail < r.num_slots
  hshapeB : ∀ r ∈ B.rxrings ++ B.txrings, r.slot.length = r.num_slots ∧
    r.head < r.num_slots ∧ r.tail < r.num_slots
  hlen_rx : ∀ i j, ((A.rxrings.getD i default).slot.getD j default).len =
    ((B.rxrings.getD i default).slot.getD j default).len
  hlen_tx : ∀ i j, ((A.txrings.getD i default).slot.getD j default).len =
    ((B.txrings.getD i default).slot.getD j default).len
  hread : ∀ i j,
    slotReadable A.pool ((A.txrings.getD i default).slot.getD j default) =
    slotReadable B.pool ((B.txrings.getD i default).slot.getD j default)
  hpend : ∀ i k, k < nm_ring_space (B.rxrings.getD i default) →
    A.pool.getD (((A.rxrings.getD i default).slot.getD
      (((B.rxrings.getD i default).head + k) %
        (B.rxrings.getD i default).num_slots) default).buf_idx) [] =
    B.pool.getD (((B.rxrings.getD i default).slot.getD
      (((B.rxrings.getD i default).head + k) %
        (B.rxrings.getD i default).num_slots) default).buf_idx) []
  hlenBS : ∀ i j, ((B.rxrings.getD i default).slot.getD j default).len ≤ BS
  hunifB : poolUniform BS B.pool
  hrangeB : ∀ r ∈ B.rxrings ++ B.txrings, ∀ s ∈ r.slot,
    s.buf_idx < B.pool.length
  hnodupB : (allBufIdx B).Nodup

/-! ## Helper lemmas on lists -/

theorem getD_set_self {α : Type} (l : List α) (i : Nat) (x d : α)
    (h : i < l.length) : (l.set i x).getD i d = x := by
  rw [List.getD_eq_getElem _ _ (by simpa using h)]
  simp [List.getElem_set, h]

theorem getD_set_ne {α : Type} (l : List α) (i j : Nat) (x d : α)
    (h : i ≠ j) : (l.set i x).getD j d = l.getD j d := by
  rcases Nat.lt_or_ge j l.length with hj | hj
  · rw [List.getD_eq_getElem _ _ (by simpa using hj),
      List.getD_eq_getElem _ _ hj]
    simp [List.getElem_set, h]
  · rw [List.getD_eq_default _ _ (by simpa using hj),
      List.getD_eq_default _ _ hj]

theorem getD_mem {α : Type} (l : List α) (i : Nat) (d : α)
    (h : i < l.length) : l.getD i d ∈ l := by
  rw [List.getD_eq_getElem _ _ h]
  exact List.getElem_mem _

theorem getD_range_map (f : Nat → Nat) (n o d : Nat) :
    ((List.range n).map f).getD o d = if o < n then f o else d := by
  by_cases h : o < n
  · rw [List.getD_eq_getElem _ _ (by simpa using h)]
    simp [h]
  · rw [List.getD_eq_default _ _ (by simpa using Nat.le_of_not_lt h)]
    simp [h]

theorem sum_map_set (f : α → Nat) (l : List α) (i : Nat) (x d : α)
    (h : i < l.length) :
    ((l.set i x).map f).sum + f (l.getD i d) = (l.map f).sum + f x := by
  induction l generalizing i with
  | nil => simp at h
  | cons a tl ih =>
    cases i with
    | zero => simp [List.set]; omega
    | succ i =>
      have hh : i < tl.length := by simpa using h
      have := ih i hh
      simp only [List.set, List.map, List.sum_cons, List.getD_cons_succ]
      omega

/-! ## Claim theorems -/

/-- Claim C1: `pkt_select` accepts a frame iff the filter port is 0, or
the link-layer type bytes are those of IP in network byte order, the IP
protocol byte is UDP, and the UDP destination-port bytes are the filter
port's big-endian bytes; each check short-circuits the later ones. -/
theorem C1_pkt_select_iff (buf : List Nat) (udp_port : Nat) :
    pkt_select buf udp_port = true ↔
      (udp_port = 0 ∨
        (bufByte buf 12 = ETHERTYPE_IP / 256 % 256 ∧
         bufByte buf 13 = ETHERTYPE_IP % 256 ∧
         bufByte buf 23 = IPPROTO_UDP ∧
         bufByte buf 36 = udp_port / 256 % 256 ∧
         bufByte buf 37 = udp_port % 256)) := by
  by_cases h0 : udp_port = 0
  · simp [pkt_select, h0]
  · simp only [pkt_select, if_neg h0]
    split_ifs with h1 h2 h3 <;> simp_all

/-- Claim C9: a negative poll return reports the error and still runs
the two forwarding calls in the same iteration; a zero return (timeout)
skips forwarding and leaves the state unchanged. -/
theorem C9_poll_dispatch (ret : Int) (udp_port : Nat) (zc : Bool)
    (s : SysState) (hneg : ret < 0) :
    main_loop_iter ret udp_port zc s =
      (forwardBoth udp_port zc s, true, true) ∧
    main_loop_iter 0 udp_port zc s = (s, false, false) := by
  constructor
  · simp [main_loop_iter, hneg]
  · simp [main_loop_iter]

/-- Witness for C9 at `ret = -1` on the empty system state. -/
theorem C9_poll_dispatch_witness :
    main_loop_iter (-1) 0 true sys0 = (forwardBoth 0 true sys0, true, true) ∧
    main_loop_iter 0 0 true sys0 = (sys0, false, false) :=
  C9_poll_dispatch (-1) 0 true sys0 (by decide)

/-- Claim C6: when the transfer engine accepts a packet with zero-copy
enabled, the accept action copies the receive slot's length into the
transmit slot, exchanges the two slots' buffer handles in one atomic
state update (afterwards each side holds exactly the handle the other
held before), sets `NS_BUF_CHANGED` on both slots, and leaves the
buffer pool untouched. -/
theorem C6_zerocopy_swap (txnum : Nat) (s : LoopState)
    (h1 : s.rxhead < s.rxslots.length) (h2 : s.txhead < s.txslots.length) :
    ((acceptPkt txnum true s).rxslots.getD s.rxhead default).buf_idx =
      (s.txslots.getD s.txhead default).buf_idx ∧
    ((acceptPkt txnum true s).txslots.getD s.txhead default).buf_idx =
      (s.rxslots.getD s.rxhead default).buf_idx ∧
    ((acceptPkt txnum true s).txslots.getD s.txhead default).len =
      (s.rxslots.getD s.rxhead default).len ∧
    ((acceptPkt txnum true s).rxslots.getD s.rxhead default).flags =
      (s.rxslots.getD s.rxhead default).flags ||| NS_BUF_CHANGED ∧
    ((acceptPkt txnum true s).txslots.getD s.txhead default).flags =
      (s.txslots.getD s.txhead default).flags ||| NS_BUF_CHANGED ∧
    ((acceptPkt txnum true s).rxslots.getD s.rxhead default).len =
      (s.rxslots.getD s.rxhead default).len ∧
    (acceptPkt txnum true s).pool = s.pool := by
  simp only [acceptPkt, if_true]
  rw [getD_set_self _ _ _ _ (by simpa using h1),
    getD_set_self _ _ _ _ (by simpa using h2)]
  simp

/-- Witness for C6 on the concrete one-slot loop state `accSt`. -/
theorem C6_zerocopy_swap_witness :
    ((acceptPkt 1 true accSt).rxslots.getD accSt.rxhead default).buf_idx =
      (accSt.txslots.getD accSt.txhead default).buf_idx ∧
    ((acceptPkt 1 true accSt).txslots.getD accSt.txhead default).buf_idx =
      (accSt.rxslots.getD accSt.rxhead default).buf_idx ∧
    ((acceptPkt 1 true accSt).txslots.getD accSt.txhead default).len =
      (accSt.rxslots.getD accSt.rxhead default).len ∧
    ((acceptPkt 1 true accSt).rxslots.getD accSt.rxhead default).flags =
      (accSt.rxslots.getD accSt.rxhead default).flags ||| NS_BUF_CHANGED ∧
    ((acceptPkt 1 true accSt).txslots.getD accSt.txhead default).flags =
      (accSt.txslots.getD accSt.txhead default).flags ||| NS_BUF_CHANGED ∧
    ((acceptPkt 1 true accSt).rxslots.getD accSt.rxhead default).len =
      (accSt.rxslots.getD accSt.rxhead default).len ∧
    (acceptPkt 1 true accSt).pool = accSt.pool :=
  C6_zerocopy_swap 1 accSt (by decide) (by decide)

/-- Claim C3: in Scenario C (receive ring with 10 queued packets, of
which the 3rd and 5th are rejected by filter 53, transmit ring with 4
free slots), one invocation forwards exactly as many packets as there
are free transmit slots (4), examines 6 packets (4 accepted + 2
rejected), and advances the receive cursor past exactly the 6 consumed
entries and the transmit cursor past the 4 produced ones — rejected
packets advance only the receive cursor and the examined counter.  The
same counts result in zero-copy mode. -/
theorem C3_capacity_scenario :
    nm_ring_space c3rx = 10 ∧
    nm_ring_space c3tx = 4 ∧
    (forward_pkts c3st 53 false).fwd = 4 ∧
    (forward_pkts c3st 53 false).tot = 6 ∧
    ((forward_pkts c3st 53 false).rxrings.getD 0 default).head = 6 ∧
    ((forward_pkts c3st 53 false).rxrings.getD 0 default).cur = 6 ∧
    ((forward_pkts c3st 53 false).txrings.getD 0 default).head = 4 ∧
    ((forward_pkts c3st 53 false).txrings.getD 0 default).cur = 4 ∧
    (forward_pkts c3st 53 true).fwd = 4 ∧
    (forward_pkts c3st 53 true).tot = 6 := by
  decide

/-- Claim C2 counterexample: the claim quantifies over every initial
ring state, but on `aliasSt` — where a transmit slot shares its buffer
handle with a still-queued receive slot — copy mode overwrites the
queued frame's bytes before it is classified, so copy mode forwards 2
packets while zero-copy forwards 1: the externally observable results
(already the `fwd` counters) differ. -/
theorem C2_counterexample :
    (forward_pkts aliasSt 53 true).fwd = 1 ∧
    (forward_pkts aliasSt 53 false).fwd = 2 ∧
    observables (forward_pkts aliasSt 53 true) ≠
      observables (forward_pkts aliasSt 53 false) := by
  decide

/-- Claim C5 counterexample: `okBuf` and `zeroBuf` agree on the first
10 bytes, yet with captured length 10 the classifier's verdicts differ
(so bytes past the captured length are read), and the truncated frame
of `truncSt` (captured length 10, shorter than the 42 header bytes) is
forwarded rather than rejected. -/
theorem C5_counterexample :
    okBuf.take 10 = zeroBuf.take 10 ∧
    pkt_select okBuf 53 = true ∧
    pkt_select zeroBuf 53 = false ∧
    ((truncSt.rxrings.getD 0 default).slot.getD 0 default).len = 10 ∧
    (forward_pkts truncSt 53 false).fwd = 1 := by
  decide

/-- Claim C5 amended: the classifier inspects only the buffer bytes at
the fixed offsets 12, 13, 23, 36 and 37, regardless of the captured
packet length: two frames agreeing at those offsets are classified
identically, so a truncated frame is accepted or dropped according to
those buffer bytes alone (truncation itself is not detected). -/
theorem C5_amended_fixed_offsets (f g : List Nat) (p : Nat)
    (h12 : bufByte f 12 = bufByte g 12) (h13 : bufByte f 13 = bufByte g 13)
    (h23 : bufByte f 23 = bufByte g 23) (h36 : bufByte f 36 = bufByte g 36)
    (h37 : bufByte f 37 = bufByte g 37) :
    pkt_select f p = pkt_select g p := by
  simp [pkt_select, h12, h13, h23, h36, h37]

/-- Witness for the amended C5: `okBuf` and `okBuf` with three extra
trailing bytes agree at the five inspected offsets, so they are
classified identically. -/
theorem C5_amended_fixed_offsets_witness :
    pkt_select okBuf 53 = pkt_select (okBuf ++ [9, 9, 9]) 53 :=
  C5_amended_fixed_offsets okBuf (okBuf ++ [9, 9, 9]) 53 (by decide)
    (by decide) (by decide) (by decide) (by decide)

/-! ## Projection and arithmetic helper lemmas for the inner loop -/

@[simp] theorem acceptPkt_tot (txnum : Nat) (zc : Bool) (s : LoopState) :
    (acceptPkt txnum zc s).tot = s.tot := by
  cases zc <;> rfl

@[simp] theorem acceptPkt_fwd (txnum : Nat) (zc : Bool) (s : LoopState) :
    (acceptPkt txnum zc s).fwd = s.fwd + 1 := by
  cases zc <;> rfl

@[simp] theorem acceptPkt_rxhead (txnum : Nat) (zc : Bool) (s : LoopState) :
    (acceptPkt txnum zc s).rxhead = s.rxhead := by
  cases zc <;> rfl

@[simp] theorem acceptPkt_txhead (txnum : Nat) (zc : Bool) (s : LoopState) :
    (acceptPkt txnum zc s).txhead = ringNext txnum s.txhead := by
  cases zc <;> rfl

theorem ringNext_lt (num i : Nat) (h : i < num) : ringNext num i < num := by
  unfold ringNext; split <;> omega

theorem spaceOf_lt (num h t : Nat) (hh : h < num) (ht : t < num) :
    spaceOf num h t < num := by
  unfold spaceOf; split <;> omega

theorem spaceOf_next (num h t : Nat) (hh : h < num) (ht : t < num)
    (hpos : 0 < spaceOf num h t) :
    spaceOf num (ringNext num h) t + 1 = spaceOf num h t := by
  unfold spaceOf at hpos
  unfold spaceOf ringNext
  split_ifs at hpos ⊢ <;> omega

theorem innerLoop_counts (p : Nat) (zc : Bool) (rxnum txnum : Nat) :
    ∀ nrx ntx (s : LoopState),
      s.tot ≤ (innerLoop p zc rxnum txnum nrx ntx s).tot ∧
      (innerLoop p zc rxnum txnum nrx ntx s).tot ≤ s.tot + nrx ∧
      s.fwd ≤ (innerLoop p zc rxnum txnum nrx ntx s).fwd ∧
      (innerLoop p zc rxnum txnum nrx ntx s).fwd ≤ s.fwd + ntx ∧
      (innerLoop p zc rxnum txnum nrx ntx s).fwd + s.tot ≤
        s.fwd + (innerLoop p zc rxnum txnum nrx ntx s).tot := by
  intro nrx
  induction nrx with
  | zero => intro ntx s; simp [innerLoop]
  | succ nrx ih =>
    intro ntx s
    cases ntx with
    | zero => simp [innerLoop]
    | succ ntx =>
      simp only [innerLoop]
      split
      · have h := ih ntx
          { acceptPkt txnum zc s with
            rxhead := ringNext rxnum s.rxhead, tot := s.tot + 1 }
        simp only [acceptPkt_fwd] at h ⊢
        omega
      · have h := ih (ntx + 1)
          { s with rxhead := ringNext rxnum s.rxhead, tot := s.tot + 1 }
        simp only at h
        omega

theorem innerLoop_tot_succ (p : Nat) (zc : Bool) (rxnum txnum nrx ntx : Nat)
    (s : LoopState) :
    s.tot + 1 ≤ (innerLoop p zc rxnum txnum (nrx + 1) (ntx + 1) s).tot := by
  simp only [innerLoop]
  split
  · have h := (innerLoop_counts p zc rxnum txnum nrx ntx
      { acceptPkt txnum zc s with
        rxhead := ringNext rxnum s.rxhead, tot := s.tot + 1 }).1
    simp only [acceptPkt_tot] at h ⊢
    omega
  · have h := (innerLoop_counts p zc rxnum txnum nrx (ntx + 1)
      { s with rxhead := ringNext rxnum s.rxhead, tot := s.tot + 1 }).1
    simp only at h
    omega

theorem innerLoop_txhead_lt (p : Nat) (zc : Bool) (rxnum txnum : Nat) :
    ∀ nrx ntx (s : LoopState), s.txhead < txnum →
      (innerLoop p zc rxnum txnum nrx ntx s).txhead < txnum := by
  intro nrx
  induction nrx with
  | zero => intro ntx s h; simpa [innerLoop] using h
  | succ nrx ih =>
    intro ntx s h
    cases ntx with
    | zero => simpa [innerLoop] using h
    | succ ntx =>
      simp only [innerLoop]
      split
      · exact ih ntx _ (by simpa using ringNext_lt txnum s.txhead h)
      · exact ih (ntx + 1) _ (by simpa using h)

theorem innerLoop_rxspace (p : Nat) (zc : Bool) (rxnum txnum rxtail : Nat)
    (htail : rxtail < rxnum) :
    ∀ nrx ntx (s : LoopState), s.rxhead < rxnum →
      nrx ≤ spaceOf rxnum s.rxhead rxtail →
      (innerLoop p zc rxnum txnum nrx ntx s).rxhead < rxnum ∧
      spaceOf rxnum (innerLoop p zc rxnum txnum nrx ntx s).rxhead rxtail +
          (innerLoop p zc rxnum txnum nrx ntx s).tot =
        spaceOf rxnum s.rxhead rxtail + s.tot := by
  intro nrx
  induction nrx with
  | zero => intro ntx s hh _; simp [innerLoop, hh]
  | succ nrx ih =>
    intro ntx s hh hle
    cases ntx with
    | zero => simp [innerLoop, hh]
    | succ ntx =>
      have hpos : 0 < spaceOf rxnum s.rxhead rxtail := by omega
      have hnext := spaceOf_next rxnum s.rxhead rxtail hh htail hpos
      have hlt := ringNext_lt rxnum s.rxhead hh
      simp only [innerLoop]
      split
      · have h := ih ntx
          { acceptPkt txnum zc s with
            rxhead := ringNext rxnum s.rxhead, tot := s.tot + 1 }
          (by simpa using hlt) (by simp; omega)
        simp only at h
        omega
      · have h := ih (ntx + 1)
          { s with rxhead := ringNext rxnum s.rxhead, tot := s.tot + 1 }
          (by simpa using hlt) (by simp; omega)
        simp only at h
        omega

/-! ## Outer-loop lemmas -/

theorem outerLoop_rx_empty (p : Nat) (zc : Bool) :
    ∀ fuel si di (st : FwdState), (∀ r ∈ st.rxrings, nm_ring_space r = 0) →
      st.rxrings.length - si < fuel →
      outerLoop p zc fuel si di st = some st := by
  intro fuel
  induction fuel with
  | zero => intro si di st _ hlt; omega
  | succ fuel ih =>
    intro si di st h hlt
    simp only [outerLoop]
    by_cases hc : si < st.rxrings.length ∧ di < st.txrings.length
    · rw [if_pos hc, if_pos (h _ (getD_mem _ _ _ hc.1))]
      exact ih (si + 1) di st h (by omega)
    · rw [if_neg hc]

/-- Claim C7: when every receive ring of the source port is empty, the
transfer engine leaves the whole state unchanged — in particular every
ring's `head` and `cur` cursors and both counters — and repeating the
invocation any number of times likewise changes nothing. -/
theorem C7_idle_identity (st : FwdState) (p : Nat) (zc : Bool)
    (hempty : ∀ r ∈ st.rxrings, nm_ring_space r = 0) :
    forward_pkts st p zc = st ∧
    ∀ n : Nat, (fun s => forward_pkts s p zc)^[n] st = st := by
  have h1 : forward_pkts st p zc = st := by
    unfold forward_pkts
    rw [outerLoop_rx_empty p zc (fwdFuel st) 0 0 st hempty
      (by unfold fwdFuel; omega)]
    rfl
  refine ⟨h1, fun n => ?_⟩
  induction n with
  | zero => rfl
  | succ n ih => rw [Function.iterate_succ_apply, h1, ih]

/-- Witness for C7 on the concrete idle state. -/
theorem C7_idle_identity_witness : forward_pkts idleSt 0 true = idleSt :=
  (C7_idle_identity idleSt 0 true (by decide)).1

@[simp] theorem commitPair_tot (p : Nat) (zc : Bool) (st : FwdState)
    (si di : Nat) : (commitPair p zc st si di).tot = (pairRun p zc st si di).tot :=
  rfl

@[simp] theorem commitPair_fwd (p : Nat) (zc : Bool) (st : FwdState)
    (si di : Nat) : (commitPair p zc st si di).fwd = (pairRun p zc st si di).fwd :=
  rfl

@[simp] theorem commitPair_rxlen (p : Nat) (zc : Bool) (st : FwdState)
    (si di : Nat) :
    (commitPair p zc st si di).rxrings.length = st.rxrings.length := by
  simp [commitPair]

@[simp] theorem commitPair_txlen (p : Nat) (zc : Bool) (st : FwdState)
    (si di : Nat) :
    (commitPair p zc st si di).txrings.length = st.txrings.length := by
  simp [commitPair]

theorem pairRun_counts (p : Nat) (zc : Bool) (st : FwdState) (si di : Nat) :
    st.tot ≤ (pairRun p zc st si di).tot ∧
    st.fwd ≤ (pairRun p zc st si di).fwd ∧
    (pairRun p zc st si di).fwd + st.tot ≤
      st.fwd + (pairRun p zc st si di).tot := by
  have h := innerLoop_counts p zc (st.rxrings.getD si default).num_slots
    (st.txrings.getD di default).num_slots
    (nm_ring_space (st.rxrings.getD si default))
    (nm_ring_space (st.txrings.getD di default))
    ⟨(st.rxrings.getD si default).slot, (st.txrings.getD di default).slot,
      (st.rxrings.getD si default).head, (st.txrings.getD di default).head,
      st.pool, st.tot, st.fwd⟩
  exact ⟨h.1, h.2.2.1, h.2.2.2.2⟩

theorem pairRun_space (p : Nat) (zc : Bool) (st : FwdState) (si di : Nat)
    (hR : RingWF (st.rxrings.getD si default)) :
    (pairRun p zc st si di).rxhead <
      (st.rxrings.getD si default).num_slots ∧
    spaceOf (st.rxrings.getD si default).num_slots
        (pairRun p zc st si di).rxhead
        (st.rxrings.getD si default).tail +
      (pairRun p zc st si di).tot =
    nm_ring_space (st.rxrings.getD si default) + st.tot := by
  have h := innerLoop_rxspace p zc (st.rxrings.getD si default).num_slots
    (st.txrings.getD di default).num_slots
    (st.rxrings.getD si default).tail hR.2
    (nm_ring_space (st.rxrings.getD si default))
    (nm_ring_space (st.txrings.getD di default))
    ⟨(st.rxrings.getD si default).slot, (st.txrings.getD di default).slot,
      (st.rxrings.getD si default).head, (st.txrings.getD di default).head,
      st.pool, st.tot, st.fwd⟩
    hR.1 (Nat.le_refl _)
  exact h

theorem pairRun_txhead (p : Nat) (zc : Bool) (st : FwdState) (si di : Nat)
    (hT : RingWF (st.txrings.getD di default)) :
    (pairRun p zc st si di).txhead <
      (st.txrings.getD di default).num_slots := by
  exact innerLoop_txhead_lt p zc (st.rxrings.getD si default).num_slots
    (st.txrings.getD di default).num_slots
    (nm_ring_space (st.rxrings.getD si default))
    (nm_ring_space (st.txrings.getD di default))
    ⟨(st.rxrings.getD si default).slot, (st.txrings.getD di default).slot,
      (st.rxrings.getD si default).head, (st.txrings.getD di default).head,
      st.pool, st.tot, st.fwd⟩
    hT.1

theorem pairRun_tot_succ (p : Nat) (zc : Bool) (st : FwdState) (si di : Nat)
    (h0 : nm_ring_space (st.rxrings.getD si default) ≠ 0)
    (h1 : nm_ring_space (st.txrings.getD di default) ≠ 0) :
    st.tot + 1 ≤ (pairRun p zc st si di).tot := by
  unfold pairRun
  obtain ⟨a, ha⟩ : ∃ a, nm_ring_space (st.rxrings.getD si default) = a + 1 :=
    ⟨nm_ring_space (st.rxrings.getD si default) - 1, by omega⟩
  obtain ⟨b, hb⟩ : ∃ b, nm_ring_space (st.txrings.getD di default) = b + 1 :=
    ⟨nm_ring_space (st.txrings.getD di default) - 1, by omega⟩
  rw [ha, hb]
  exact innerLoop_tot_succ p zc (st.rxrings.getD si default).num_slots
    (st.txrings.getD di default).num_slots a b
    ⟨(st.rxrings.getD si default).slot, (st.txrings.getD di default).slot,
      (st.rxrings.getD si default).head, (st.txrings.getD di default).head,
      st.pool, st.tot, st.fwd⟩

theorem commitPair_wf (p : Nat) (zc : Bool) (st : FwdState) (si di : Nat)
    (hwf : RingsWF st) (hsi : si < st.rxrings.length)
    (hdi : di < st.txrings.length) :
    RingsWF (commitPair p zc st si di) := by
  have hR : RingWF (st.rxrings.getD si default) :=
    hwf _ (List.mem_append_left _ (getD_mem _ _ _ hsi))
  have hT : RingWF (st.txrings.getD di default) :=
    hwf _ (List.mem_append_right _ (getD_mem _ _ _ hdi))
  intro r hr
  rcases List.mem_append.1 hr with hrx | htx
  · rcases List.mem_or_eq_of_mem_set hrx with hold | hnew
    · exact hwf _ (List.mem_append_left _ hold)
    · subst hnew
      exact ⟨(pairRun_space p zc st si di hR).1, hR.2⟩
  · rcases List.mem_or_eq_of_mem_set htx with hold | hnew
    · exact hwf _ (List.mem_append_right _ hold)
    · subst hnew
      exact ⟨pairRun_txhead p zc st si di hT, hT.2⟩

theorem commitPair_rxspace_sum (p : Nat) (zc : Bool) (st : FwdState)
    (si di : Nat) (hwf : RingsWF st) (hsi : si < st.rxrings.length) :
    totalRxSpace (commitPair p zc st si di) + (pairRun p zc st si di).tot =
      totalRxSpace st + st.tot := by
  have hR : RingWF (st.rxrings.getD si default) :=
    hwf _ (List.mem_append_left _ (getD_mem _ _ _ hsi))
  have hsp := (pairRun_space p zc st si di hR).2
  have hrw : (commitPair p zc st si di).rxrings = st.rxrings.set si
      { st.rxrings.getD si default with
        slot := (pairRun p zc st si di).rxslots,
        head := (pairRun p zc st si di).rxhead,
        cur := (pairRun p zc st si di).rxhead } := rfl
  have hsum := sum_map_set nm_ring_space st.rxrings si
    { st.rxrings.getD si default with
      slot := (pairRun p zc st si di).rxslots,
      head := (pairRun p zc st si di).rxhead,
      cur := (pairRun p zc st si di).rxhead } default hsi
  have hnewspace : nm_ring_space
      { st.rxrings.getD si default with
        slot := (pairRun p zc st si di).rxslots,
        head := (pairRun p zc st si di).rxhead,
        cur := (pairRun p zc st si di).rxhead } =
      spaceOf (st.rxrings.getD si default).num_slots
        (pairRun p zc st si di).rxhead
        (st.rxrings.getD si default).tail := rfl
  unfold totalRxSpace
  rw [hrw]
  rw [hnewspace] at hsum
  omega

theorem commitPair_measure (p : Nat) (zc : Bool) (st : FwdState) (si di : Nat)
    (hwf : RingsWF st) (hsi : si < st.rxrings.length)
    (_hdi : di < st.txrings.length)
    (h0 : nm_ring_space (st.rxrings.getD si default) ≠ 0)
    (h1 : nm_ring_space (st.txrings.getD di default) ≠ 0) :
    totalRxSpace (commitPair p zc st si di) < totalRxSpace st := by
  have hc := commitPair_rxspace_sum p zc st si di hwf hsi
  have ht := pairRun_tot_succ p zc st si di h0 h1
  omega

theorem outerLoop_total (p : Nat) (zc : Bool) :
    ∀ fuel si di (st : FwdState), RingsWF st →
      (st.rxrings.length - si) + (st.txrings.length - di) + totalRxSpace st <
        fuel →
      (outerLoop p zc fuel si di st).isSome = true := by
  intro fuel
  induction fuel with
  | zero => intro si di st _ h; omega
  | succ fuel ih =>
    intro si di st hwf hm
    simp only [outerLoop]
    by_cases hc : si < st.rxrings.length ∧ di < st.txrings.length
    · rw [if_pos hc]
      by_cases h0 : nm_ring_space (st.rxrings.getD si default) = 0
      · rw [if_pos h0]
        exact ih (si + 1) di st hwf (by omega)
      · rw [if_neg h0]
        by_cases h1 : nm_ring_space (st.txrings.getD di default) = 0
        · rw [if_pos h1]
          exact ih si (di + 1) st hwf (by omega)
        · rw [if_neg h1]
          refine ih si di _ (commitPair_wf p zc st si di hwf hc.1 hc.2) ?_
          have hms := commitPair_measure p zc st si di hwf hc.1 hc.2 h0 h1
          have hrl := commitPair_rxlen p zc st si di
          have htl := commitPair_txlen p zc st si di
          omega
    · rw [if_neg hc]; rfl

/-- Claim C8: on any state satisfying the netmap ring invariant, a
single invocation of the transfer engine terminates: the fuel-indexed
outer loop reaches its exit (every pass advances a ring index or
strictly consumes receive occupancy) within `fwdFuel` steps, and
`forward_pkts` returns that fixpoint rather than the fuel-exhaustion
fallback. -/
theorem C8_termination (st : FwdState) (p : Nat) (zc : Bool)
    (hwf : RingsWF st) :
    ∃ out, outerLoop p zc (fwdFuel st) 0 0 st = some out ∧
      forward_pkts st p zc = out := by
  have h := outerLoop_total p zc (fwdFuel st) 0 0 st hwf
    (by unfold fwdFuel; omega)
  rcases Option.isSome_iff_exists.1 h with ⟨out, hout⟩
  exact ⟨out, hout, by unfold forward_pkts; rw [hout]; rfl⟩

/-- Witness for C8 on the concrete Scenario C state. -/
theorem C8_termination_witness :
    ∃ out, outerLoop 53 false (fwdFuel c3st) 0 0 c3st = some out ∧
      forward_pkts c3st 53 false = out :=
  C8_termination c3st 53 false (by decide)

theorem outerLoop_counts (p : Nat) (zc : Bool) :
    ∀ fuel si di (st st' : FwdState), outerLoop p zc fuel si di st = some st' →
      st.tot ≤ st'.tot ∧ st.fwd ≤ st'.fwd ∧
      st'.fwd + st.tot ≤ st.fwd + st'.tot := by
  intro fuel
  induction fuel with
  | zero => intro si di st st' h; simp [outerLoop] at h
  | succ fuel ih =>
    intro si di st st' h
    simp only [outerLoop] at h
    by_cases hc : si < st.rxrings.length ∧ di < st.txrings.length
    · rw [if_pos hc] at h
      by_cases h0 : nm_ring_space (st.rxrings.getD si default) = 0
      · rw [if_pos h0] at h
        exact ih _ _ _ _ h
      · rw [if_neg h0] at h
        by_cases h1 : nm_ring_space (st.txrings.getD di default) = 0
        · rw [if_pos h1] at h
          exact ih _ _ _ _ h
        · rw [if_neg h1] at h
          have hrec := ih _ _ _ _ h
          have hp := pairRun_counts p zc st si di
          simp only [commitPair_tot, commitPair_fwd] at hrec
          omega
    · rw [if_neg hc] at h
      cases h
      exact ⟨Nat.le_refl _, Nat.le_refl _, by omega⟩

theorem outerLoop_conservation (p : Nat) (zc : Bool) :
    ∀ fuel si di (st st' : FwdState), RingsWF st →
      outerLoop p zc fuel si di st = some st' →
      totalRxSpace st' + st'.tot = totalRxSpace st + st.tot ∧ RingsWF st' := by
  intro fuel
  induction fuel with
  | zero => intro si di st st' _ h; simp [outerLoop] at h
  | succ fuel ih =>
    intro si di st st' hwf h
    simp only [outerLoop] at h
    by_cases hc : si < st.rxrings.length ∧ di < st.txrings.length
    · rw [if_pos hc] at h
      by_cases h0 : nm_ring_space (st.rxrings.getD si default) = 0
      · rw [if_pos h0] at h
        exact ih _ _ _ _ hwf h
      · rw [if_neg h0] at h
        by_cases h1 : nm_ring_space (st.txrings.getD di default) = 0
        · rw [if_pos h1] at h
          exact ih _ _ _ _ hwf h
        · rw [if_neg h1] at h
          have hrec := ih _ _ _ _ (commitPair_wf p zc st si di hwf hc.1 hc.2) h
          have hcs := commitPair_rxspace_sum p zc st si di hwf hc.1
          simp only [commitPair_tot] at hrec
          exact ⟨by omega, hrec.2⟩
    · rw [if_neg hc] at h
      cases h
      exact ⟨rfl, hwf⟩

theorem forward_pkts_counts (st : FwdState) (p : Nat) (zc : Bool) :
    st.tot ≤ (forward_pkts st p zc).tot ∧
    st.fwd ≤ (forward_pkts st p zc).fwd ∧
    (forward_pkts st p zc).fwd + st.tot ≤ st.fwd + (forward_pkts st p zc).tot := by
  unfold forward_pkts
  cases hout : outerLoop p zc (fwdFuel st) 0 0 st with
  | none => simp
  | some st' => simpa using outerLoop_counts p zc (fwdFuel st) 0 0 st st' hout

theorem forward_pkts_conservation (st : FwdState) (p : Nat) (zc : Bool)
    (hwf : RingsWF st) :
    totalRxSpace (forward_pkts st p zc) + (forward_pkts st p zc).tot =
      totalRxSpace st + st.tot ∧ RingsWF (forward_pkts st p zc) := by
  unfold forward_pkts
  cases hout : outerLoop p zc (fwdFuel st) 0 0 st with
  | none => exact ⟨rfl, hwf⟩
  | some st' =>
    simpa using outerLoop_conservation p zc (fwdFuel st) 0 0 st st' hwf hout

theorem runSeq_conservation (params : List (Nat × Bool)) :
    ∀ st : FwdState, RingsWF st →
      totalRxSpace (runSeq params st) + (runSeq params st).tot =
        totalRxSpace st + st.tot ∧
      RingsWF (runSeq params st) ∧
      st.tot ≤ (runSeq params st).tot ∧
      st.fwd ≤ (runSeq params st).fwd ∧
      (runSeq params st).fwd + st.tot ≤ st.fwd + (runSeq params st).tot := by
  induction params with
  | nil =>
    intro st hwf
    exact ⟨rfl, hwf, Nat.le_refl _, Nat.le_refl _, Nat.le_refl _⟩
  | cons pz rest ih =>
    intro st hwf
    simp only [runSeq]
    have h1c := forward_pkts_counts st pz.1 pz.2
    have h1s := forward_pkts_conservation st pz.1 pz.2 hwf
    have h2 := ih (forward_pkts st pz.1 pz.2) h1s.2
    exact ⟨by omega, h2.2.1, by omega, by omega, by omega⟩

/-- Claim C4: starting from zero counters, after any sequence of
transfer-engine invocations the total-examined counter `tot` equals the
total number of receive-ring slots consumed (initial minus remaining
receive occupancy), the forwarded counter never exceeds it, and both
counters are monotonically non-decreasing across each invocation, with
the forwarded counter's increment never exceeding the examined
counter's. -/
theorem C4_counters (st0 : FwdState) (params : List (Nat × Bool))
    (hwf : RingsWF st0) (htot : st0.tot = 0) (hfwd : st0.fwd = 0) :
    (runSeq params st0).tot + totalRxSpace (runSeq params st0) =
      totalRxSpace st0 ∧
    (runSeq params st0).fwd ≤ (runSeq params st0).tot ∧
    (∀ (st : FwdState) (p : Nat) (zc : Bool),
      st.tot ≤ (forward_pkts st p zc).tot ∧
      st.fwd ≤ (forward_pkts st p zc).fwd ∧
      (forward_pkts st p zc).fwd + st.tot ≤
        st.fwd + (forward_pkts st p zc).tot) := by
  have h := runSeq_conservation params st0 hwf
  exact ⟨by omega, by omega, fun st p zc => forward_pkts_counts st p zc⟩

/-- Witness for C4: two invocations on the Scenario C state. -/
theorem C4_counters_witness :
    (runSeq [(53, false), (53, true)] c3st).tot +
        totalRxSpace (runSeq [(53, false), (53, true)] c3st) =
      totalRxSpace c3st ∧
    (runSeq [(53, false), (53, true)] c3st).fwd ≤
      (runSeq [(53, false), (53, true)] c3st).tot :=
  ⟨(C4_counters c3st [(53, false), (53, true)] (by decide) rfl rfl).1,
   (C4_counters c3st [(53, false), (53, true)] (by decide) rfl rfl).2.1⟩

/-! ## Frame-effect lemmas: what the engine never touches -/

theorem ext_getD {α : Type} (l m : List α) (d : α) (hlen : l.length = m.length)
    (h : ∀ j, l.getD j d = m.getD j d) : l = m := by
  apply List.ext_getElem hlen
  intro i h1 h2
  have hi := h i
  rwa [List.getD_eq_getElem _ _ h1, List.getD_eq_getElem _ _ h2] at hi

theorem acceptPkt_lengths (txnum : Nat) (zc : Bool) (s : LoopState) :
    (acceptPkt txnum zc s).rxslots.length = s.rxslots.length ∧
    (acceptPkt txnum zc s).txslots.length = s.txslots.length ∧
    (acceptPkt txnum zc s).pool.length = s.pool.length := by
  cases zc <;> simp [acceptPkt]

theorem innerLoop_lengths (p : Nat) (zc : Bool) (rxnum txnum : Nat) :
    ∀ nrx ntx (s : LoopState),
      (innerLoop p zc rxnum txnum nrx ntx s).rxslots.length =
        s.rxslots.length ∧
      (innerLoop p zc rxnum txnum nrx ntx s).txslots.length =
        s.txslots.length ∧
      (innerLoop p zc rxnum txnum nrx ntx s).pool.length = s.pool.length := by
  intro nrx
  induction nrx with
  | zero => intro ntx s; exact ⟨rfl, rfl, rfl⟩
  | succ nrx ih =>
    intro ntx s
    cases ntx with
    | zero => exact ⟨rfl, rfl, rfl⟩
    | succ ntx =>
      simp only [innerLoop]
      split
      · have h1 := ih ntx
          { acceptPkt txnum zc s with
            rxhead := ringNext rxnum s.rxhead, tot := s.tot + 1 }
        have h2 := acceptPkt_lengths txnum zc s
        exact ⟨h1.1.trans h2.1, h1.2.1.trans h2.2.1, h1.2.2.trans h2.2.2⟩
      · exact ih (ntx + 1)
          { s with rxhead := ringNext rxnum s.rxhead, tot := s.tot + 1 }

theorem acceptPkt_rxslots_len (txnum : Nat) (zc : Bool) (s : LoopState)
    (j : Nat) :
    ((acceptPkt txnum zc s).rxslots.getD j default).len =
      (s.rxslots.getD j default).len := by
  cases zc with
  | false => rfl
  | true =>
    by_cases hr : s.rxhead < s.rxslots.length
    · by_cases hj : s.rxhead = j
      · subst hj
        show ((s.rxslots.set s.rxhead _).getD s.rxhead default).len = _
        rw [getD_set_self _ _ _ _ hr]
      · show ((s.rxslots.set s.rxhead _).getD j default).len = _
        rw [getD_set_ne _ _ _ _ _ hj]
    · show ((s.rxslots.set s.rxhead _).getD j default).len = _
      rw [List.set_eq_of_length_le (Nat.le_of_not_lt hr)]

theorem innerLoop_rxlen (p : Nat) (zc : Bool) (rxnum txnum : Nat) :
    ∀ nrx ntx (s : LoopState) (j : Nat),
      ((innerLoop p zc rxnum txnum nrx ntx s).rxslots.getD j default).len =
        (s.rxslots.getD j default).len := by
  intro nrx
  induction nrx with
  | zero => intro ntx s j; rfl
  | succ nrx ih =>
    intro ntx s j
    cases ntx with
    | zero => rfl
    | succ ntx =>
      simp only [innerLoop]
      split
      · rw [ih ntx _ j]
        exact acceptPkt_rxslots_len txnum zc s j
      · exact ih (ntx + 1) _ j

theorem innerLoop_rxslots_copy (p : Nat) (rxnum txnum : Nat) :
    ∀ nrx ntx (s : LoopState),
      (innerLoop p false rxnum txnum nrx ntx s).rxslots = s.rxslots := by
  intro nrx
  induction nrx with
  | zero => intro ntx s; rfl
  | succ nrx ih =>
    intro ntx s
    cases ntx with
    | zero => rfl
    | succ ntx =>
      simp only [innerLoop]
      split
      · exact ih ntx _
      · exact ih (ntx + 1) _

theorem innerLoop_pool_zc (p : Nat) (rxnum txnum : Nat) :
    ∀ nrx ntx (s : LoopState),
      (innerLoop p true rxnum txnum nrx ntx s).pool = s.pool := by
  intro nrx
  induction nrx with
  | zero => intro ntx s; rfl
  | succ nrx ih =>
    intro ntx s
    cases ntx with
    | zero => rfl
    | succ ntx =>
      simp only [innerLoop]
      split
      · exact ih ntx _
      · exact ih (ntx + 1) _

theorem commitPair_rx_frame (p : Nat) (zc : Bool) (st : FwdState)
    (si di i j : Nat) :
    (((commitPair p zc st si di).rxrings.getD i default).slot.getD j
        default).len =
      ((st.rxrings.getD i default).slot.getD j default).len ∧
    ((commitPair p zc st si di).rxrings.getD i default).num_slots =
      (st.rxrings.getD i default).num_slots ∧
    ((commitPair p zc st si di).rxrings.getD i default).tail =
      (st.rxrings.getD i default).tail ∧
    (zc = false → ((commitPair p zc st si di).rxrings.getD i default).slot =
      (st.rxrings.getD i default).slot) := by
  have hrw : (commitPair p zc st si di).rxrings = st.rxrings.set si
      { st.rxrings.getD si default with
        slot := (pairRun p zc st si di).rxslots,
        head := (pairRun p zc st si di).rxhead,
        cur := (pairRun p zc st si di).rxhead } := rfl
  rw [hrw]
  by_cases hsi : si < st.rxrings.length
  · by_cases hii : si = i
    · subst hii
      rw [getD_set_self _ _ _ _ hsi]
      refine ⟨?_, rfl, rfl, ?_⟩
      · exact innerLoop_rxlen p zc (st.rxrings.getD si default).num_slots
          (st.txrings.getD di default).num_slots
          (nm_ring_space (st.rxrings.getD si default))
          (nm_ring_space (st.txrings.getD di default))
          ⟨(st.rxrings.getD si default).slot,
            (st.txrings.getD di default).slot,
            (st.rxrings.getD si default).head,
            (st.txrings.getD di default).head,
            st.pool, st.tot, st.fwd⟩ j
      · intro hzc
        subst hzc
        exact innerLoop_rxslots_copy p
          (st.rxrings.getD si default).num_slots
          (st.txrings.getD di default).num_slots
          (nm_ring_space (st.rxrings.getD si default))
          (nm_ring_space (st.txrings.getD di default))
          ⟨(st.rxrings.getD si default).slot,
            (st.txrings.getD di default).slot,
            (st.rxrings.getD si default).head,
            (st.txrings.getD di default).head,
            st.pool, st.tot, st.fwd⟩
    · rw [getD_set_ne _ _ _ _ _ hii]
      exact ⟨rfl, rfl, rfl, fun _ => rfl⟩
  · rw [List.set_eq_of_length_le (Nat.le_of_not_lt hsi)]
    exact ⟨rfl, rfl, rfl, fun _ => rfl⟩

theorem outerLoop_rx_frame (p : Nat) (zc : Bool) :
    ∀ fuel si di (st st' : FwdState), outerLoop p zc fuel si di st = some st' →
      ∀ i j,
        ((st'.rxrings.getD i default).slot.getD j default).len =
          ((st.rxrings.getD i default).slot.getD j default).len ∧
        (st'.rxrings.getD i default).num_slots =
          (st.rxrings.getD i default).num_slots ∧
        (st'.rxrings.getD i default).tail =
          (st.rxrings.getD i default).tail ∧
        (zc = false → (st'.rxrings.getD i default).slot =
          (st.rxrings.getD i default).slot) := by
  intro fuel
  induction fuel with
  | zero => intro si di st st' h; simp [outerLoop] at h
  | succ fuel ih =>
    intro si di st st' h i j
    simp only [outerLoop] at h
    by_cases hc : si < st.rxrings.length ∧ di < st.txrings.length
    · rw [if_pos hc] at h
      by_cases h0 : nm_ring_space (st.rxrings.getD si default) = 0
      · rw [if_pos h0] at h
        exact ih _ _ _ _ h i j
      · rw [if_neg h0] at h
        by_cases h1 : nm_ring_space (st.txrings.getD di default) = 0
        · rw [if_pos h1] at h
          exact ih _ _ _ _ h i j
        · rw [if_neg h1] at h
          have hrec := ih _ _ _ _ h i j
          have hcp := commitPair_rx_frame p zc st si di i j
          refine ⟨hrec.1.trans hcp.1, hrec.2.1.trans hcp.2.1,
            hrec.2.2.1.trans hcp.2.2.1, fun hzc =>
            (hrec.2.2.2 hzc).trans (hcp.2.2.2 hzc)⟩
    · rw [if_neg hc] at h
      cases h
      exact ⟨rfl, rfl, rfl, fun _ => rfl⟩

/-- Claim C10: the transfer engine never modifies the length field of
any receive slot; in copy mode receive slot arrays are not modified at
all, and in either mode a receive ring's `num_slots` and `tail` are
untouched (only `head` and `cur` advance), so the source port's
recorded packet lengths are preserved by every invocation. -/
theorem C10_rx_untouched (st : FwdState) (p : Nat) (zc : Bool) :
    (∀ i j,
      (((forward_pkts st p zc).rxrings.getD i default).slot.getD j
          default).len =
        ((st.rxrings.getD i default).slot.getD j default).len) ∧
    (∀ i,
      ((forward_pkts st p zc).rxrings.getD i default).num_slots =
        (st.rxrings.getD i default).num_slots ∧
      ((forward_pkts st p zc).rxrings.getD i default).tail =
        (st.rxrings.getD i default).tail) ∧
    (zc = false → ∀ i,
      ((forward_pkts st p zc).rxrings.getD i default).slot =
        (st.rxrings.getD i default).slot) := by
  unfold forward_pkts
  cases hout : outerLoop p zc (fwdFuel st) 0 0 st with
  | none => exact ⟨fun i j => rfl, fun i => ⟨rfl, rfl⟩, fun _ i => rfl⟩
  | some st' =>
    have h := outerLoop_rx_frame p zc (fwdFuel st) 0 0 st st' hout
    exact ⟨fun i j => (h i j).1, fun i => ⟨(h i 0).2.1, (h i 0).2.2.1⟩,
      fun hzc i => (h i 0).2.2.2 hzc⟩

/-- Witness for C10 at the Scenario C state in copy mode. -/
theorem C10_rx_untouched_witness :
    (((forward_pkts c3st 53 false).rxrings.getD 0 default).slot.getD 0
        default).len =
      ((c3st.rxrings.getD 0 default).slot.getD 0 default).len ∧
    ((forward_pkts c3st 53 false).rxrings.getD 0 default).slot =
      (c3st.rxrings.getD 0 default).slot :=
  ⟨(C10_rx_untouched c3st 53 false).1 0 0,
   (C10_rx_untouched c3st 53 false).2.2 rfl 0⟩

/-! ## Helper lemmas for the zero-copy / copy-mode coupling -/

theorem set_getD_self {α : Type} : ∀ (l : List α) (i : Nat) (d : α),
    l.set i (l.getD i d) = l := by
  intro l
  induction l with
  | nil => intro i d; rfl
  | cons x tl ih =>
    intro i d
    cases i with
    | zero => rfl
    | succ i => simpa using ih i d

theorem ringNext_mod (num i : Nat) (h : i < num) :
    ringNext num i = (i + 1) % num := by
  unfold ringNext
  split
  · rename_i h1
    rw [h1, Nat.mod_self]
  · rename_i h1
    rw [Nat.mod_eq_of_lt (by omega)]

theorem add_mod_ne (h d m : Nat) (hh : h < m) (hd1 : 0 < d) (hd2 : d < m) :
    (h + d) % m ≠ h := by
  intro he
  rcases Nat.lt_or_ge (h + d) m with hlt | hge
  · rw [Nat.mod_eq_of_lt hlt] at he
    omega
  · rw [Nat.mod_eq_sub_mod hge, Nat.mod_eq_of_lt (by omega)] at he
    omega

theorem nodup_getD_ne (l : List Nat) (hnd : l.Nodup) (i j d : Nat)
    (hi : i < l.length) (hj : j < l.length) (hij : i ≠ j) :
    l.getD i d ≠ l.getD j d := by
  rw [List.getD_eq_getElem _ _ hi, List.getD_eq_getElem _ _ hj]
  intro he
  exact hij (hnd.getElem_inj_iff.1 he)

theorem bufmap_rx (rx tx : List NetmapSlot) (q : Nat) (hq : q < rx.length) :
    ((rx ++ tx).map NetmapSlot.buf_idx).getD q 0 =
      (rx.getD q default).buf_idx := by
  have h1 : q < ((rx ++ tx).map NetmapSlot.buf_idx).length := by
    simp; omega
  rw [List.getD_eq_getElem _ _ h1, List.getD_eq_getElem _ _ hq]
  simp only [List.map_append]
  rw [List.getElem_append_left (by simpa using hq)]
  simp

theorem bufmap_tx (rx tx : List NetmapSlot) (q : Nat) (hq : q < tx.length) :
    ((rx ++ tx).map NetmapSlot.buf_idx).getD (rx.length + q) 0 =
      (tx.getD q default).buf_idx := by
  have h1 : rx.length + q < ((rx ++ tx).map NetmapSlot.buf_idx).length := by
    simp; omega
  rw [List.getD_eq_getElem _ _ h1, List.getD_eq_getElem _ _ hq]
  have h2 : (rx.map NetmapSlot.buf_idx).length ≤ rx.length + q := by
    simp
  simp only [List.map_append]
  rw [List.getElem_append_right h2]
  simp

theorem memcpyBytes_length (dst src : List Nat) (len : Nat) :
    (memcpyBytes dst src len).length = dst.length := by
  simp [memcpyBytes]

theorem memcpy_readable (dst src : List Nat) (len : Nat)
    (hlen : len ≤ dst.length) :
    (List.range len).map (bufByte (memcpyBytes dst src len)) =
      (List.range len).map (bufByte src) := by
  apply List.map_congr_left
  intro o ho
  have ho' : o < len := List.mem_range.1 ho
  show (memcpyBytes dst src len).getD o 0 = bufByte src o
  unfold memcpyBytes
  rw [getD_range_map]
  simp [ho', Nat.lt_of_lt_of_le ho' hlen, bufByte]

theorem acceptPkt_true_rxslots (txnum : Nat) (a : LoopState) :
    (acceptPkt txnum true a).rxslots = a.rxslots.set a.rxhead
      { a.rxslots.getD a.rxhead default with
        buf_idx := (a.txslots.getD a.txhead default).buf_idx,
        flags := (a.rxslots.getD a.rxhead default).flags ||| NS_BUF_CHANGED } :=
  rfl

theorem acceptPkt_true_txslots (txnum : Nat) (a : LoopState) :
    (acceptPkt txnum true a).txslots = a.txslots.set a.txhead
      { a.txslots.getD a.txhead default with
        len := (a.rxslots.getD a.rxhead default).len,
        buf_idx := (a.rxslots.getD a.rxhead default).buf_idx,
        flags := (a.txslots.getD a.txhead default).flags ||| NS_BUF_CHANGED } :=
  rfl

theorem acceptPkt_true_pool (txnum : Nat) (a : LoopState) :
    (acceptPkt txnum true a).pool = a.pool := rfl

theorem acceptPkt_false_rxslots (txnum : Nat) (b : LoopState) :
    (acceptPkt txnum false b).rxslots = b.rxslots := rfl

theorem acceptPkt_false_txslots (txnum : Nat) (b : LoopState) :
    (acceptPkt txnum false b).txslots = b.txslots.set b.txhead
      { b.txslots.getD b.txhead default with
        len := (b.rxslots.getD b.rxhead default).len } := rfl

theorem acceptPkt_false_pool (txnum : Nat) (b : LoopState) :
    (acceptPkt txnum false b).pool = b.pool.set
      (b.txslots.getD b.txhead default).buf_idx
      (memcpyBytes (b.pool.getD (b.txslots.getD b.txhead default).buf_idx [])
        (b.pool.getD (b.rxslots.getD b.rxhead default).buf_idx [])
        (b.rxslots.getD b.rxhead default).len) := rfl

theorem acceptPkt_false_txmap (txnum : Nat) (b : LoopState) :
    (acceptPkt txnum false b).txslots.map NetmapSlot.buf_idx =
      b.txslots.map NetmapSlot.buf_idx := by
  rw [acceptPkt_false_txslots, List.map_set]
  have h1 : NetmapSlot.buf_idx
      { b.txslots.getD b.txhead default with
        len := (b.rxslots.getD b.rxhead default).len } =
      (b.txslots.map NetmapSlot.buf_idx).getD b.txhead 0 := by
    have h2 := @List.getD_map _ _ b.txslots default b.txhead
      NetmapSlot.buf_idx
    simp only [show NetmapSlot.buf_idx default = 0 from rfl] at h2
    rw [h2]
  rw [h1, set_getD_self]

theorem innerLoop_txmap_copy (p : Nat) (rxnum txnum : Nat) :
    ∀ nrx ntx (s : LoopState),
      (innerLoop p false rxnum txnum nrx ntx s).txslots.map
        NetmapSlot.buf_idx = s.txslots.map NetmapSlot.buf_idx := by
  intro nrx
  induction nrx with
  | zero => intro ntx s; rfl
  | succ nrx ih =>
    intro ntx s
    cases ntx with
    | zero => rfl
    | succ ntx =>
      simp only [innerLoop]
      split
      · rw [ih ntx _]
        exact acceptPkt_false_txmap txnum s
      · exact ih (ntx + 1) _

theorem innerLoop_pool_frame (p : Nat) (rxnum txnum : Nat) :
    ∀ nrx ntx (s : LoopState) idx, s.txslots.length = txnum →
      s.txhead < txnum →
      idx ∉ s.txslots.map NetmapSlot.buf_idx →
      (innerLoop p false rxnum txnum nrx ntx s).pool.getD idx [] =
        s.pool.getD idx [] := by
  intro nrx
  induction nrx with
  | zero => intro ntx s idx _ _ _; rfl
  | succ nrx ih =>
    intro ntx s idx hlen hhead hid
    cases ntx with
    | zero => rfl
    | succ ntx =>
      simp only [innerLoop]
      split
      · have hlen2 : (acceptPkt txnum false s).txslots.length = txnum := by
          rw [acceptPkt_false_txslots]
          simpa using hlen
        have hid2 : idx ∉ (acceptPkt txnum false s).txslots.map
            NetmapSlot.buf_idx := by
          rw [acceptPkt_false_txmap]
          exact hid
        have hrec := ih ntx
          { acceptPkt txnum false s with
            rxhead := ringNext rxnum s.rxhead, tot := s.tot + 1 }
          idx hlen2 (by simpa using ringNext_lt txnum s.txhead hhead) hid2
        rw [hrec]
        show ((acceptPkt txnum false s).pool).getD idx [] = _
        rw [acceptPkt_false_pool]
        have hmem : (s.txslots.getD s.txhead default).buf_idx ∈
            s.txslots.map NetmapSlot.buf_idx :=
          List.mem_map_of_mem NetmapSlot.buf_idx
            (getD_mem _ _ _ (by omega))
        have hne : (s.txslots.getD s.txhead default).buf_idx ≠ idx := by
          intro he
          exact hid (he ▸ hmem)
        rw [getD_set_ne _ _ _ _ _ hne]
      · exact ih (ntx + 1) _ idx hlen hhead hid

theorem sublist_flatten_single {α : Type} :
    ∀ (L : List (List α)) (j : Nat), j < L.length →
      (L.getD j []).Sublist L.flatten := by
  intro L
  induction L with
  | nil => intro j hj; simp at hj
  | cons x Ls ih =>
    intro j hj
    cases j with
    | zero =>
      simp only [List.getD_cons_zero, List.flatten_cons]
      exact List.sublist_append_left x Ls.flatten
    | succ j =>
      simp only [List.getD_cons_succ, List.flatten_cons]
      exact (ih j (by simpa using hj)).trans
        (List.sublist_append_right x Ls.flatten)

theorem sublist_flatten_pair {α : Type} :
    ∀ (L : List (List α)) (i j : Nat), i < j → j < L.length →
      (L.getD i [] ++ L.getD j []).Sublist L.flatten := by
  intro L
  induction L with
  | nil => intro i j hij hj; simp at hj
  | cons x Ls ih =>
    intro i j hij hj
    cases i with
    | zero =>
      cases j with
      | zero => omega
      | succ j =>
        simp only [List.getD_cons_zero, List.getD_cons_succ,
          List.flatten_cons]
        exact List.Sublist.append_left
          (sublist_flatten_single Ls j (by simpa using hj)) x
    | succ i =>
      cases j with
      | zero => omega
      | succ j =>
        simp only [List.getD_cons_succ, List.flatten_cons]
        exact (ih i j (by omega) (by simpa using hj)).trans
          (List.sublist_append_right x Ls.flatten)

theorem slotReadable_congr (p1 p2 : List (List Nat)) (s : NetmapSlot)
    (h : p1.getD s.buf_idx [] = p2.getD s.buf_idx []) :
    slotReadable p1 s = slotReadable p2 s := by
  unfold slotReadable bufByte
  rw [h]

theorem stepReject (BS rxnum txnum m : Nat) (a b : LoopState)
    (rel : InnerRel BS rxnum txnum (m + 1) a b) :
    InnerRel BS rxnum txnum m
      { a with rxhead := ringNext rxnum a.rxhead, tot := a.tot + 1 }
      { b with rxhead := ringNext rxnum b.rxhead, tot := b.tot + 1 } := by
  obtain ⟨hrx, htx, htot, hfwd, hrxlenA, hrxlenB, htxlenA, htxlenB, hheadrx,
    hheadtx, hn, hlen_rx, hlen_tx, hread, hpend, hlenBS, hunifB, hrangeB,
    hnodupB⟩ := rel
  refine ⟨?_, htx, ?_, hfwd, hrxlenA, hrxlenB, htxlenA, htxlenB, ?_, hheadtx,
    by omega, hlen_rx, hlen_tx, hread, ?_, hlenBS, hunifB, hrangeB, hnodupB⟩
  · show ringNext rxnum a.rxhead = ringNext rxnum b.rxhead
    rw [hrx]
  · show a.tot + 1 = b.tot + 1
    rw [htot]
  · show ringNext rxnum b.rxhead < rxnum
    exact ringNext_lt rxnum b.rxhead hheadrx
  · intro k hk
    show a.pool.getD ((a.rxslots.getD
        ((ringNext rxnum b.rxhead + k) % rxnum) default).buf_idx) [] =
      b.pool.getD ((b.rxslots.getD
        ((ringNext rxnum b.rxhead + k) % rxnum) default).buf_idx) []
    have hpos : (ringNext rxnum b.rxhead + k) % rxnum =
        (b.rxhead + (1 + k)) % rxnum := by
      rw [ringNext_mod rxnum b.rxhead hheadrx, Nat.mod_add_mod,
        Nat.add_assoc]
    rw [hpos]
    exact hpend (1 + k) (by omega)

theorem stepAccept (BS rxnum txnum m : Nat) (a b : LoopState)
    (rel : InnerRel BS rxnum txnum (m + 1) a b) :
    InnerRel BS rxnum txnum m
      { acceptPkt txnum true a with
        rxhead := ringNext rxnum a.rxhead, tot := a.tot + 1 }
      { acceptPkt txnum false b with
        rxhead := ringNext rxnum b.rxhead, tot := b.tot + 1 } := by
  obtain ⟨hrx, htx, htot, hfwd, hrxlenA, hrxlenB, htxlenA, htxlenB, hheadrx,
    hheadtx, hn, hlen_rx, hlen_tx, hread, hpend, hlenBS, hunifB, hrangeB,
    hnodupB⟩ := rel
  have hrxA : a.rxhead < a.rxslots.length := by
    rw [hrxlenA, hrx]; exact hheadrx
  have hrxB : b.rxhead < b.rxslots.length := by
    rw [hrxlenB]; exact hheadrx
  have htxA : a.txhead < a.txslots.length := by
    rw [htxlenA, htx]; exact hheadtx
  have htxB : b.txhead < b.txslots.length := by
    rw [htxlenB]; exact hheadtx
  have hrslen : (a.rxslots.getD a.rxhead default).len =
      (b.rxslots.getD b.rxhead default).len := by
    rw [hrx]; exact hlen_rx b.rxhead
  have hbuf0 : a.pool.getD ((a.rxslots.getD a.rxhead default).buf_idx) [] =
      b.pool.getD ((b.rxslots.getD b.rxhead default).buf_idx) [] := by
    have h0 := hpend 0 (by omega)
    rw [Nat.add_zero, Nat.mod_eq_of_lt hheadrx] at h0
    rw [hrx]
    exact h0
  have htsmem : b.txslots.getD b.txhead default ∈ b.txslots :=
    getD_mem _ _ _ htxB
  have htsrange : (b.txslots.getD b.txhead default).buf_idx < b.pool.length :=
    hrangeB _ (List.mem_append_right _ htsmem)
  have hdstlen :
      (b.pool.getD (b.txslots.getD b.txhead default).buf_idx []).length =
        BS :=
    hunifB _ (getD_mem _ _ _ htsrange)
  have hrsBS : (b.rxslots.getD b.rxhead default).len ≤ BS := hlenBS b.rxhead
  have hndtx : ∀ j, j < b.txslots.length → j ≠ b.txhead →
      (b.txslots.getD j default).buf_idx ≠
        (b.txslots.getD b.txhead default).buf_idx := by
    intro j hj hne
    have hd := nodup_getD_ne _ hnodupB (b.rxslots.length + j)
      (b.rxslots.length + b.txhead) 0 (by simp; omega) (by simp; omega)
      (by omega)
    rwa [bufmap_tx _ _ j hj, bufmap_tx _ _ b.txhead htxB] at hd
  have hndrx : ∀ q, q < b.rxslots.length →
      (b.rxslots.getD q default).buf_idx ≠
        (b.txslots.getD b.txhead default).buf_idx := by
    intro q hq
    have hd := nodup_getD_ne _ hnodupB q (b.rxslots.length + b.txhead) 0
      (by simp; omega) (by simp; omega) (by omega)
    rwa [bufmap_rx _ _ q hq, bufmap_tx _ _ b.txhead htxB] at hd
  refine ⟨?_, ?_, ?_, ?_, ?_, ?_, ?_, ?_, ?_, ?_, by omega, ?_, ?_, ?_, ?_,
    ?_, ?_, ?_, ?_⟩
  · show ringNext rxnum a.rxhead = ringNext rxnum b.rxhead
    rw [hrx]
  · show ringNext txnum a.txhead = ringNext txnum b.txhead
    rw [htx]
  · show a.tot + 1 = b.tot + 1
    rw [htot]
  · show a.fwd + 1 = b.fwd + 1
    rw [hfwd]
  · show (acceptPkt txnum true a).rxslots.length = rxnum
    rw [acceptPkt_true_rxslots]
    simpa using hrxlenA
  · show (acceptPkt txnum false b).rxslots.length = rxnum
    rw [acceptPkt_false_rxslots]
    exact hrxlenB
  · show (acceptPkt txnum true a).txslots.length = txnum
    rw [acceptPkt_true_txslots]
    simpa using htxlenA
  · show (acceptPkt txnum false b).txslots.length = txnum
    rw [acceptPkt_false_txslots]
    simpa using htxlenB
  · show ringNext rxnum b.rxhead < rxnum
    exact ringNext_lt rxnum b.rxhead hheadrx
  · show ringNext txnum b.txhead < txnum
    exact ringNext_lt txnum b.txhead hheadtx
  · -- receive slot lengths
    intro j
    show ((acceptPkt txnum true a).rxslots.getD j default).len =
      ((acceptPkt txnum false b).rxslots.getD j default).len
    rw [acceptPkt_true_rxslots, acceptPkt_false_rxslots]
    by_cases hj : a.rxhead = j
    · subst hj
      rw [getD_set_self _ _ _ _ hrxA]
      exact hlen_rx a.rxhead
    · rw [getD_set_ne _ _ _ _ _ hj]
      exact hlen_rx j
  · -- transmit slot lengths
    intro j
    show ((acceptPkt txnum true a).txslots.getD j default).len =
      ((acceptPkt txnum false b).txslots.getD j default).len
    rw [acceptPkt_true_txslots, acceptPkt_false_txslots]
    by_cases hj : j = b.txhead
    · subst hj
      rw [htx, getD_set_self _ _ _ _ (by rw [← htx]; exact htxA),
        getD_set_self _ _ _ _ htxB]
      exact hrslen
    · have hja : a.txhead ≠ j := by rw [htx]; exact fun he => hj he.symm
      have hjb : b.txhead ≠ j := fun he => hj he.symm
      rw [getD_set_ne _ _ _ _ _ hja, getD_set_ne _ _ _ _ _ hjb]
      exact hlen_tx j
  · -- readable transmit bytes
    intro j
    show slotReadable (acceptPkt txnum true a).pool
        ((acceptPkt txnum true a).txslots.getD j default) =
      slotReadable (acceptPkt txnum false b).pool
        ((acceptPkt txnum false b).txslots.getD j default)
    rw [acceptPkt_true_pool, acceptPkt_true_txslots, acceptPkt_false_pool,
      acceptPkt_false_txslots]
    by_cases hj : j = b.txhead
    · subst hj
      rw [htx, getD_set_self _ _ _ _ (by rw [← htx]; exact htxA),
        getD_set_self _ _ _ _ htxB]
      have hR : slotReadable
          (b.pool.set (b.txslots.getD b.txhead default).buf_idx
            (memcpyBytes
              (b.pool.getD (b.txslots.getD b.txhead default).buf_idx [])
              (b.pool.getD ((b.rxslots.getD b.rxhead default).buf_idx) [])
              (b.rxslots.getD b.rxhead default).len))
          { b.txslots.getD b.txhead default with
            len := (b.rxslots.getD b.rxhead default).len } =
          (List.range ((b.rxslots.getD b.rxhead default).len)).map
            (bufByte
              (b.pool.getD ((b.rxslots.getD b.rxhead default).buf_idx) [])) := by
        show (List.range ((b.rxslots.getD b.rxhead default).len)).map
            (bufByte ((b.pool.set (b.txslots.getD b.txhead default).buf_idx
              (memcpyBytes _ _ _)).getD
                (b.txslots.getD b.txhead default).buf_idx [])) = _
        rw [getD_set_self _ _ _ _ htsrange]
        exact memcpy_readable _ _ _ (by rw [hdstlen]; exact hrsBS)
      rw [hR]
      show (List.range ((a.rxslots.getD a.rxhead default).len)).map
          (bufByte (a.pool.getD ((a.rxslots.getD a.rxhead default).buf_idx)
            [])) = _
      rw [hrslen, hbuf0]
    · have hja : a.txhead ≠ j := by rw [htx]; exact fun he => hj he.symm
      have hjb : b.txhead ≠ j := fun he => hj he.symm
      rw [getD_set_ne _ _ _ _ _ hja, getD_set_ne _ _ _ _ _ hjb]
      rcases Nat.lt_or_ge j b.txslots.length with hjl | hjl
      · have hne := hndtx j hjl (fun he => hj he)
        refine (hread j).trans (slotReadable_congr _ _ _ ?_)
        rw [getD_set_ne _ _ _ _ _ (fun he => hne he.symm)]
      · have hja2 : a.txslots.length ≤ j := by
          rw [htxlenA, ← htxlenB]; exact hjl
        rw [List.getD_eq_default _ _ hja2, List.getD_eq_default _ _ hjl]
        rfl
  · -- pending receive frames
    intro k hk
    show a.pool.getD (((a.rxslots.set a.rxhead
        { a.rxslots.getD a.rxhead default with
          buf_idx := (a.txslots.getD a.txhead default).buf_idx,
          flags := (a.rxslots.getD a.rxhead default).flags |||
            NS_BUF_CHANGED }).getD
        ((ringNext rxnum b.rxhead + k) % rxnum) default).buf_idx) [] =
      (b.pool.set (b.txslots.getD b.txhead default).buf_idx
        (memcpyBytes
          (b.pool.getD (b.txslots.getD b.txhead default).buf_idx [])
          (b.pool.getD ((b.rxslots.getD b.rxhead default).buf_idx) [])
          (b.rxslots.getD b.rxhead default).len)).getD
        ((b.rxslots.getD ((ringNext rxnum b.rxhead + k) % rxnum)
          default).buf_idx) []
    have hpos : (ringNext rxnum b.rxhead + k) % rxnum =
        (b.rxhead + (1 + k)) % rxnum := by
      rw [ringNext_mod rxnum b.rxhead hheadrx, Nat.mod_add_mod,
        Nat.add_assoc]
    rw [hpos]
    have hqa : a.rxhead ≠ (b.rxhead + (1 + k)) % rxnum := by
      rw [hrx]
      exact fun he =>
        add_mod_ne b.rxhead (1 + k) rxnum hheadrx (by omega) (by omega)
          he.symm
    rw [getD_set_ne _ _ _ _ _ hqa]
    have hql : (b.rxhead + (1 + k)) % rxnum < b.rxslots.length := by
      rw [hrxlenB]
      exact Nat.mod_lt _ (by omega)
    have hqb := hndrx ((b.rxhead + (1 + k)) % rxnum) hql
    rw [getD_set_ne _ _ _ _ _ (fun he => hqb he.symm)]
    exact hpend (1 + k) (by omega)
  · -- receive lengths bounded by the buffer size
    intro j
    show ((acceptPkt txnum false b).rxslots.getD j default).len ≤ BS
    rw [acceptPkt_false_rxslots]
    exact hlenBS j
  · -- uniform pool
    show poolUniform BS (acceptPkt txnum false b).pool
    rw [acceptPkt_false_pool]
    intro bb hbb
    rcases List.mem_or_eq_of_mem_set hbb with hm | he
    · exact hunifB _ hm
    · rw [he, memcpyBytes_length]
      exact hdstlen
  · -- handles resolve into the pool
    intro s hs
    show s.buf_idx < (acceptPkt txnum false b).pool.length
    have hplen : (acceptPkt txnum false b).pool.length = b.pool.length := by
      rw [acceptPkt_false_pool]
      simp
    rw [hplen]
    rw [show (acceptPkt txnum false b).rxslots = b.rxslots from rfl,
      acceptPkt_false_txslots] at hs
    rcases List.mem_append.1 hs with hm | hm
    · exact hrangeB _ (List.mem_append_left _ hm)
    · rcases List.mem_or_eq_of_mem_set hm with hm2 | he
      · exact hrangeB _ (List.mem_append_right _ hm2)
      · rw [he]
        exact htsrange
  · -- distinct handles
    show (((acceptPkt txnum false b).rxslots ++
        (acceptPkt txnum false b).txslots).map NetmapSlot.buf_idx).Nodup
    rw [List.map_append, acceptPkt_false_rxslots, acceptPkt_false_txmap,
      ← List.map_append]
    exact hnodupB

theorem innerCoupling (p BS rxnum txnum : Nat) :
    ∀ n ntx (a b : LoopState), InnerRel BS rxnum txnum n a b →
      InnerRel BS rxnum txnum
        (n - ((innerLoop p true rxnum txnum n ntx a).tot - a.tot))
        (innerLoop p true rxnum txnum n ntx a)
        (innerLoop p false rxnum txnum n ntx b) := by
  intro n
  induction n with
  | zero =>
    intro ntx a b rel
    simpa [innerLoop] using rel
  | succ m ih =>
    intro ntx a b rel
    cases ntx with
    | zero => simpa [innerLoop] using rel
    | succ k =>
      have hcond : pkt_select
          (a.pool.getD ((a.rxslots.getD a.rxhead default).buf_idx) []) p =
          pkt_select
          (b.pool.getD ((b.rxslots.getD b.rxhead default).buf_idx) []) p := by
        have h0 := rel.hpend 0 (by omega)
        rw [Nat.add_zero, Nat.mod_eq_of_lt rel.hheadrx] at h0
        rw [rel.hrx, h0]
      simp only [innerLoop]
      by_cases hsel : pkt_select
          (b.pool.getD ((b.rxslots.getD b.rxhead default).buf_idx) []) p =
          true
      · rw [if_pos (hcond.trans hsel), if_pos hsel]
        have hstep := stepAccept BS rxnum txnum m a b rel
        have ihres := ih k
          { acceptPkt txnum true a with
            rxhead := ringNext rxnum a.rxhead, tot := a.tot + 1 }
          { acceptPkt txnum false b with
            rxhead := ringNext rxnum b.rxhead, tot := b.tot + 1 } hstep
        have hA2 : ({ acceptPkt txnum true a with
            rxhead := ringNext rxnum a.rxhead,
            tot := a.tot + 1 } : LoopState).tot = a.tot + 1 := rfl
        rw [hA2] at ihres
        have hmono := (innerLoop_counts p true rxnum txnum m k
          { acceptPkt txnum true a with
            rxhead := ringNext rxnum a.rxhead, tot := a.tot + 1 }).1
        rw [hA2] at hmono
        have heq : m - ((innerLoop p true rxnum txnum m k
            { acceptPkt txnum true a with
              rxhead := ringNext rxnum a.rxhead,
              tot := a.tot + 1 }).tot - (a.tot + 1)) =
          (m + 1) - ((innerLoop p true rxnum txnum m k
            { acceptPkt txnum true a with
              rxhead := ringNext rxnum a.rxhead,
              tot := a.tot + 1 }).tot - a.tot) := by
          omega
        rw [heq] at ihres
        exact ihres
      · rw [if_neg (by rw [hcond]; exact hsel), if_neg hsel]
        have hstep := stepReject BS rxnum txnum m a b rel
        have ihres := ih (k + 1)
          { a with rxhead := ringNext rxnum a.rxhead, tot := a.tot + 1 }
          { b with rxhead := ringNext rxnum b.rxhead, tot := b.tot + 1 }
          hstep
        have hA2 : ({ a with
            rxhead := ringNext rxnum a.rxhead,
            tot := a.tot + 1 } : LoopState).tot = a.tot + 1 := rfl
        rw [hA2] at ihres
        have hmono := (innerLoop_counts p true rxnum txnum m (k + 1)
          { a with
            rxhead := ringNext rxnum a.rxhead,
            tot := a.tot + 1 }).1
        rw [hA2] at hmono
        have heq : m - ((innerLoop p true rxnum txnum m (k + 1)
            { a with
              rxhead := ringNext rxnum a.rxhead,
              tot := a.tot + 1 }).tot - (a.tot + 1)) =
          (m + 1) - ((innerLoop p true rxnum txnum m (k + 1)
            { a with
              rxhead := ringNext rxnum a.rxhead,
              tot := a.tot + 1 }).tot - a.tot) := by
          omega
        rw [heq] at ihres
        exact ihres

theorem commitPair_rxrings (p : Nat) (zc : Bool) (st : FwdState)
    (si di : Nat) :
    (commitPair p zc st si di).rxrings = st.rxrings.set si
      { st.rxrings.getD si default with
        slot := (pairRun p zc st si di).rxslots,
        head := (pairRun p zc st si di).rxhead,
        cur := (pairRun p zc st si di).rxhead } := rfl

theorem commitPair_txrings (p : Nat) (zc : Bool) (st : FwdState)
    (si di : Nat) :
    (commitPair p zc st si di).txrings = st.txrings.set di
      { st.txrings.getD di default with
        slot := (pairRun p zc st si di).txslots,
        head := (pairRun p zc st si di).txhead,
        cur := (pairRun p zc st si di).txhead } := rfl

theorem commitPair_pool (p : Nat) (zc : Bool) (st : FwdState) (si di : Nat) :
    (commitPair p zc st si di).pool = (pairRun p zc st si di).pool := rfl

theorem pairRun_pool_zc (p : Nat) (st : FwdState) (si di : Nat) :
    (pairRun p true st si di).pool = st.pool :=
  innerLoop_pool_zc p (st.rxrings.getD si default).num_slots
    (st.txrings.getD di default).num_slots
    (nm_ring_space (st.rxrings.getD si default))
    (nm_ring_space (st.txrings.getD di default)) _

theorem pairRun_rxslots_copy (p : Nat) (st : FwdState) (si di : Nat) :
    (pairRun p false st si di).rxslots = (st.rxrings.getD si default).slot :=
  innerLoop_rxslots_copy p (st.rxrings.getD si default).num_slots
    (st.txrings.getD di default).num_slots
    (nm_ring_space (st.rxrings.getD si default))
    (nm_ring_space (st.txrings.getD di default)) _

theorem pairRun_txmap_copy (p : Nat) (st : FwdState) (si di : Nat) :
    (pairRun p false st si di).txslots.map NetmapSlot.buf_idx =
      (st.txrings.getD di default).slot.map NetmapSlot.buf_idx :=
  innerLoop_txmap_copy p (st.rxrings.getD si default).num_slots
    (st.txrings.getD di default).num_slots
    (nm_ring_space (st.rxrings.getD si default))
    (nm_ring_space (st.txrings.getD di default)) _

theorem pairRun_pool_frame (p : Nat) (st : FwdState) (si di : Nat)
    (hshape : (st.txrings.getD di default).slot.length =
      (st.txrings.getD di default).num_slots)
    (hhead : (st.txrings.getD di default).head <
      (st.txrings.getD di default).num_slots)
    (idx : Nat)
    (hidx : idx ∉ (st.txrings.getD di default).slot.map NetmapSlot.buf_idx) :
    (pairRun p false st si di).pool.getD idx [] = st.pool.getD idx [] :=
  innerLoop_pool_frame p (st.rxrings.getD si default).num_slots
    (st.txrings.getD di default).num_slots
    (nm_ring_space (st.rxrings.getD si default))
    (nm_ring_space (st.txrings.getD di default)) _ idx hshape hhead hidx

theorem pairRun_pool_length (p : Nat) (zc : Bool) (st : FwdState)
    (si di : Nat) :
    (pairRun p zc st si di).pool.length = st.pool.length :=
  (innerLoop_lengths p zc (st.rxrings.getD si default).num_slots
    (st.txrings.getD di default).num_slots
    (nm_ring_space (st.rxrings.getD si default))
    (nm_ring_space (st.txrings.getD di default)) _).2.2

theorem allBufIdx_block (st : FwdState) (i : Nat) :
    (((st.rxrings ++ st.txrings).map fun r =>
      r.slot.map NetmapSlot.buf_idx).getD i []) =
      ((st.rxrings ++ st.txrings).getD i default).slot.map
        NetmapSlot.buf_idx := by
  have h := @List.getD_map _ _ (st.rxrings ++ st.txrings) default i
    (fun r => r.slot.map NetmapSlot.buf_idx)
  simpa using h

theorem pair_nodup (B : FwdState) (si di : Nat)
    (hsi : si < B.rxrings.length) (hdi : di < B.txrings.length)
    (hnd : (allBufIdx B).Nodup) :
    (((B.rxrings.getD si default).slot ++
      (B.txrings.getD di default).slot).map NetmapSlot.buf_idx).Nodup := by
  have hsub := sublist_flatten_pair
    ((B.rxrings ++ B.txrings).map fun r => r.slot.map NetmapSlot.buf_idx)
    si (B.rxrings.length + di) (by omega) (by simp; omega)
  rw [allBufIdx_block, allBufIdx_block] at hsub
  rw [List.getD_append _ _ _ _ hsi,
    List.getD_append_right _ _ _ _ (by omega),
    Nat.add_sub_cancel_left] at hsub
  have hres := hsub.nodup hnd
  rw [List.map_append]
  exact hres

theorem blocks_disjoint (B : FwdState) (hnd : (allBufIdx B).Nodup)
    (i1 i2 : Nat) (h1 : i1 < (B.rxrings ++ B.txrings).length)
    (h2 : i2 < (B.rxrings ++ B.txrings).length) (hne : i1 ≠ i2) (x : Nat)
    (hx : x ∈ ((B.rxrings ++ B.txrings).getD i1 default).slot.map
      NetmapSlot.buf_idx) :
    x ∉ ((B.rxrings ++ B.txrings).getD i2 default).slot.map
      NetmapSlot.buf_idx := by
  rcases Nat.lt_or_ge i1 i2 with hlt | hge
  · have hsub := sublist_flatten_pair
      ((B.rxrings ++ B.txrings).map fun r => r.slot.map NetmapSlot.buf_idx)
      i1 i2 hlt (by simpa using h2)
    rw [allBufIdx_block, allBufIdx_block] at hsub
    exact List.disjoint_of_nodup_append (hsub.nodup hnd) hx
  · have hlt2 : i2 < i1 := by omega
    have hsub := sublist_flatten_pair
      ((B.rxrings ++ B.txrings).map fun r => r.slot.map NetmapSlot.buf_idx)
      i2 i1 hlt2 (by simpa using h1)
    rw [allBufIdx_block, allBufIdx_block] at hsub
    intro hx2
    exact List.disjoint_of_nodup_append (hsub.nodup hnd) hx2 hx

theorem allBufIdx_commit_copy (p : Nat) (B : FwdState) (si di : Nat) :
    allBufIdx (commitPair p false B si di) = allBufIdx B := by
  unfold allBufIdx
  rw [commitPair_rxrings, commitPair_txrings]
  simp only [List.map_append, List.map_set]
  have hrx : ({ B.rxrings.getD si default with
      slot := (pairRun p false B si di).rxslots,
      head := (pairRun p false B si di).rxhead,
      cur := (pairRun p false B si di).rxhead } : NetmapRing).slot.map
        NetmapSlot.buf_idx =
      (B.rxrings.map fun r => r.slot.map NetmapSlot.buf_idx).getD si [] := by
    show (pairRun p false B si di).rxslots.map NetmapSlot.buf_idx = _
    rw [pairRun_rxslots_copy]
    have h := @List.getD_map _ _ B.rxrings default si
      (fun r => r.slot.map NetmapSlot.buf_idx)
    exact h.symm
  have htx : ({ B.txrings.getD di default with
      slot := (pairRun p false B si di).txslots,
      head := (pairRun p false B si di).txhead,
      cur := (pairRun p false B si di).txhead } : NetmapRing).slot.map
        NetmapSlot.buf_idx =
      (B.txrings.map fun r => r.slot.map NetmapSlot.buf_idx).getD di [] := by
    show (pairRun p false B si di).txslots.map NetmapSlot.buf_idx = _
    rw [pairRun_txmap_copy]
    have h := @List.getD_map _ _ B.txrings default di
      (fun r => r.slot.map NetmapSlot.buf_idx)
    exact h.symm
  rw [hrx, htx, set_getD_self, set_getD_self]

theorem commitCoupling (p BS : Nat) (A B : FwdState) (si di : Nat)
    (rel : FwdRel BS A B) (hsi : si < A.rxrings.length)
    (hdi : di < A.txrings.length) :
    FwdRel BS (commitPair p true A si di) (commitPair p false B si di) := by
  have hsiB : si < B.rxrings.length := by rw [← rel.hrxn]; exact hsi
  have hdiB : di < B.txrings.length := by rw [← rel.htxn]; exact hdi
  have hRA := rel.hshapeA (A.rxrings.getD si default)
    (List.mem_append_left _ (getD_mem _ _ default hsi))
  have hRB := rel.hshapeB (B.rxrings.getD si default)
    (List.mem_append_left _ (getD_mem _ _ default hsiB))
  have hTA := rel.hshapeA (A.txrings.getD di default)
    (List.mem_append_right _ (getD_mem _ _ default hdi))
  have hTB := rel.hshapeB (B.txrings.getD di default)
    (List.mem_append_right _ (getD_mem _ _ default hdiB))
  have hsprx : nm_ring_space (A.rxrings.getD si default) =
      nm_ring_space (B.rxrings.getD si default) := by
    unfold nm_ring_space
    rw [rel.hrxnum si, rel.hrxhead si, rel.hrxtail si]
  have hsptx : nm_ring_space (A.txrings.getD di default) =
      nm_ring_space (B.txrings.getD di default) := by
    unfold nm_ring_space
    rw [rel.htxnum di, rel.htxhead di, rel.htxtail di]
  have hpairA : pairRun p true A si di = innerLoop p true
      (B.rxrings.getD si default).num_slots
      (B.txrings.getD di default).num_slots
      (nm_ring_space (B.rxrings.getD si default))
      (nm_ring_space (B.txrings.getD di default))
      ⟨(A.rxrings.getD si default).slot, (A.txrings.getD di default).slot,
        (A.rxrings.getD si default).head, (A.txrings.getD di default).head,
        A.pool, A.tot, A.fwd⟩ := by
    unfold pairRun
    rw [rel.hrxnum si, rel.htxnum di, hsprx, hsptx]
  have hpairB : pairRun p false B si di = innerLoop p false
      (B.rxrings.getD si default).num_slots
      (B.txrings.getD di default).num_slots
      (nm_ring_space (B.rxrings.getD si default))
      (nm_ring_space (B.txrings.getD di default))
      ⟨(B.rxrings.getD si default).slot, (B.txrings.getD di default).slot,
        (B.rxrings.getD si default).head, (B.txrings.getD di default).head,
        B.pool, B.tot, B.fwd⟩ := rfl
  have entry : InnerRel BS (B.rxrings.getD si default).num_slots
      (B.txrings.getD di default).num_slots
      (nm_ring_space (B.rxrings.getD si default))
      ⟨(A.rxrings.getD si default).slot, (A.txrings.getD di default).slot,
        (A.rxrings.getD si default).head, (A.txrings.getD di default).head,
        A.pool, A.tot, A.fwd⟩
      ⟨(B.rxrings.getD si default).slot, (B.txrings.getD di default).slot,
        (B.rxrings.getD si default).head, (B.txrings.getD di default).head,
        B.pool, B.tot, B.fwd⟩ := by
    refine ⟨rel.hrxhead si, rel.htxhead di, rel.htot, rel.hfwd, ?_, hRB.1,
      ?_, hTB.1, hRB.2.1, hTB.2.1, ?_, rel.hlen_rx si, rel.hlen_tx di,
      rel.hread di, rel.hpend si, rel.hlenBS si, rel.hunifB, ?_, ?_⟩
    · rw [← rel.hrxnum si]
      exact hRA.1
    · rw [← rel.htxnum di]
      exact hTA.1
    · exact spaceOf_lt _ _ _ hRB.2.1 hRB.2.2
    · intro s hs
      rcases List.mem_append.1 hs with hm | hm
      · exact rel.hrangeB _ (List.mem_append_left _ (getD_mem _ _ _ hsiB))
          s hm
      · exact rel.hrangeB _ (List.mem_append_right _ (getD_mem _ _ _ hdiB))
          s hm
    · exact pair_nodup B si di hsiB hdiB rel.hnodupB
  have rel' := innerCoupling p BS (B.rxrings.getD si default).num_slots
    (B.txrings.getD di default).num_slots
    (nm_ring_space (B.rxrings.getD si default))
    (nm_ring_space (B.txrings.getD di default)) _ _ entry
  rw [← hpairA, ← hpairB] at rel'
  have hs0tot : (⟨(A.rxrings.getD si default).slot,
      (A.txrings.getD di default).slot,
      (A.rxrings.getD si default).head, (A.txrings.getD di default).head,
      A.pool, A.tot, A.fwd⟩ : LoopState).tot = A.tot := rfl
  rw [hs0tot] at rel'
  have hBwf : RingWF (B.rxrings.getD si default) := ⟨hRB.2.1, hRB.2.2⟩
  have hBspace := (pairRun_space p false B si di hBwf).2
  have hBcounts := pairRun_counts p false B si di
  refine ⟨?_, ?_, ?_, ?_, ?_, ?_, ?_, ?_, ?_, ?_, ?_, ?_, ?_, ?_, ?_, ?_,
    ?_, ?_, ?_, ?_, ?_, ?_⟩
  · rw [commitPair_tot, commitPair_tot]
    exact rel'.htot
  · rw [commitPair_fwd, commitPair_fwd]
    exact rel'.hfwd
  · rw [commitPair_rxrings, commitPair_rxrings]
    simp [rel.hrxn]
  · rw [commitPair_txrings, commitPair_txrings]
    simp [rel.htxn]
  · -- receive num_slots
    intro i
    rw [commitPair_rxrings, commitPair_rxrings]
    by_cases hii : si = i
    · subst hii
      rw [getD_set_self _ _ _ _ hsi, getD_set_self _ _ _ _ hsiB]
      exact rel.hrxnum si
    · rw [getD_set_ne _ _ _ _ _ hii, getD_set_ne _ _ _ _ _ hii]
      exact rel.hrxnum i
  · -- receive head
    intro i
    rw [commitPair_rxrings, commitPair_rxrings]
    by_cases hii : si = i
    · subst hii
      rw [getD_set_self _ _ _ _ hsi, getD_set_self _ _ _ _ hsiB]
      exact rel'.hrx
    · rw [getD_set_ne _ _ _ _ _ hii, getD_set_ne _ _ _ _ _ hii]
      exact rel.hrxhead i
  · -- receive cur
    intro i
    rw [commitPair_rxrings, commitPair_rxrings]
    by_cases hii : si = i
    · subst hii
      rw [getD_set_self _ _ _ _ hsi, getD_set_self _ _ _ _ hsiB]
      exact rel'.hrx
    · rw [getD_set_ne _ _ _ _ _ hii, getD_set_ne _ _ _ _ _ hii]
      exact rel.hrxcur i
  · -- receive tail
    intro i
    rw [commitPair_rxrings, commitPair_rxrings]
    by_cases hii : si = i
    · subst hii
      rw [getD_set_self _ _ _ _ hsi, getD_set_self _ _ _ _ hsiB]
      exact rel.hrxtail si
    · rw [getD_set_ne _ _ _ _ _ hii, getD_set_ne _ _ _ _ _ hii]
      exact rel.hrxtail i
  · -- transmit num_slots
    intro i
    rw [commitPair_txrings, commitPair_txrings]
    by_cases hii : di = i
    · subst hii
      rw [getD_set_self _ _ _ _ hdi, getD_set_self _ _ _ _ hdiB]
      exact rel.htxnum di
    · rw [getD_set_ne _ _ _ _ _ hii, getD_set_ne _ _ _ _ _ hii]
      exact rel.htxnum i
  · -- transmit head
    intro i
    rw [commitPair_txrings, commitPair_txrings]
    by_cases hii : di = i
    · subst hii
      rw [getD_set_self _ _ _ _ hdi, getD_set_self _ _ _ _ hdiB]
      exact rel'.htx
    · rw [getD_set_ne _ _ _ _ _ hii, getD_set_ne _ _ _ _ _ hii]
      exact rel.htxhead i
  · -- transmit cur
    intro i
    rw [commitPair_txrings, commitPair_txrings]
    by_cases hii : di = i
    · subst hii
      rw [getD_set_self _ _ _ _ hdi, getD_set_self _ _ _ _ hdiB]
      exact rel'.htx
    · rw [getD_set_ne _ _ _ _ _ hii, getD_set_ne _ _ _ _ _ hii]
      exact rel.htxcur i
  · -- transmit tail
    intro i
    rw [commitPair_txrings, commitPair_txrings]
    by_cases hii : di = i
    · subst hii
      rw [getD_set_self _ _ _ _ hdi, getD_set_self _ _ _ _ hdiB]
      exact rel.htxtail di
    · rw [getD_set_ne _ _ _ _ _ hii, getD_set_ne _ _ _ _ _ hii]
      exact rel.htxtail i
  · -- shape of the zero-copy side
    intro r hr
    rw [commitPair_rxrings, commitPair_txrings] at hr
    rcases List.mem_append.1 hr with hm | hm
    · rcases List.mem_or_eq_of_mem_set hm with hold | hnew
      · exact rel.hshapeA _ (List.mem_append_left _ hold)
      · subst hnew
        refine ⟨?_, ?_, hRA.2.2⟩
        · show (pairRun p true A si di).rxslots.length =
            (A.rxrings.getD si default).num_slots
          rw [hpairA,
            (innerLoop_lengths p true (B.rxrings.getD si default).num_slots
              (B.txrings.getD di default).num_slots
              (nm_ring_space (B.rxrings.getD si default))
              (nm_ring_space (B.txrings.getD di default)) _).1]
          exact hRA.1
        · show (pairRun p true A si di).rxhead <
            (A.rxrings.getD si default).num_slots
          rw [rel.hrxnum si, rel'.hrx]
          exact rel'.hheadrx
    · rcases List.mem_or_eq_of_mem_set hm with hold | hnew
      · exact rel.hshapeA _ (List.mem_append_right _ hold)
      · subst hnew
        refine ⟨?_, ?_, hTA.2.2⟩
        · show (pairRun p true A si di).txslots.length =
            (A.txrings.getD di default).num_slots
          rw [hpairA,
            (innerLoop_lengths p true (B.rxrings.getD si default).num_slots
              (B.txrings.getD di default).num_slots
              (nm_ring_space (B.rxrings.getD si default))
              (nm_ring_space (B.txrings.getD di default)) _).2.1]
          exact hTA.1
        · show (pairRun p true A si di).txhead <
            (A.txrings.getD di default).num_slots
          rw [rel.htxnum di, rel'.htx]
          exact rel'.hheadtx
  · -- shape of the copy-mode side
    intro r hr
    rw [commitPair_rxrings, commitPair_txrings] at hr
    rcases List.mem_append.1 hr with hm | hm
    · rcases List.mem_or_eq_of_mem_set hm with hold | hnew
      · exact rel.hshapeB _ (List.mem_append_left _ hold)
      · subst hnew
        exact ⟨rel'.hrxlenB, rel'.hheadrx, hRB.2.2⟩
    · rcases List.mem_or_eq_of_mem_set hm with hold | hnew
      · exact rel.hshapeB _ (List.mem_append_right _ hold)
      · subst hnew
        exact ⟨rel'.htxlenB, rel'.hheadtx, hTB.2.2⟩
  · -- receive slot lengths
    intro i j
    rw [commitPair_rxrings, commitPair_rxrings]
    by_cases hii : si = i
    · subst hii
      rw [getD_set_self _ _ _ _ hsi, getD_set_self _ _ _ _ hsiB]
      exact rel'.hlen_rx j
    · rw [getD_set_ne _ _ _ _ _ hii, getD_set_ne _ _ _ _ _ hii]
      exact rel.hlen_rx i j
  · -- transmit slot lengths
    intro i j
    rw [commitPair_txrings, commitPair_txrings]
    by_cases hii : di = i
    · subst hii
      rw [getD_set_self _ _ _ _ hdi, getD_set_self _ _ _ _ hdiB]
      exact rel'.hlen_tx j
    · rw [getD_set_ne _ _ _ _ _ hii, getD_set_ne _ _ _ _ _ hii]
      exact rel.hlen_tx i j
  · -- readable transmit bytes
    intro i j
    rw [commitPair_pool, commitPair_pool, commitPair_txrings,
      commitPair_txrings]
    by_cases hii : di = i
    · subst hii
      rw [getD_set_self _ _ _ _ hdi, getD_set_self _ _ _ _ hdiB]
      exact rel'.hread j
    · rw [getD_set_ne _ _ _ _ _ hii, getD_set_ne _ _ _ _ _ hii]
      have hL : slotReadable (pairRun p true A si di).pool
          ((A.txrings.getD i default).slot.getD j default) =
          slotReadable B.pool
          ((B.txrings.getD i default).slot.getD j default) := by
        rw [pairRun_pool_zc]
        exact rel.hread i j
      rw [hL]
      by_cases hir : i < B.txrings.length
      · by_cases hjr : j < (B.txrings.getD i default).slot.length
        · refine slotReadable_congr _ _ _ ?_
          refine (pairRun_pool_frame p B si di hTB.1 hTB.2.1 _ ?_).symm
          have hmem : ((B.txrings.getD i default).slot.getD j
              default).buf_idx ∈
              ((B.rxrings ++ B.txrings).getD (B.rxrings.length + i)
                default).slot.map NetmapSlot.buf_idx := by
            rw [List.getD_append_right _ _ _ _ (by omega),
              Nat.add_sub_cancel_left]
            exact List.mem_map_of_mem _ (getD_mem _ _ _ hjr)
          have hd := blocks_disjoint B rel.hnodupB (B.rxrings.length + i)
            (B.rxrings.length + di) (by simp; omega) (by simp; omega)
            (by omega) _ hmem
          rw [List.getD_append_right _ _ _ _ (by omega),
            Nat.add_sub_cancel_left] at hd
          exact hd
        · rw [List.getD_eq_default _ _ (Nat.le_of_not_lt hjr)]
          rfl
      · rw [List.getD_eq_default _ _
          (by rw [List.getD_eq_default _ _ (Nat.le_of_not_lt hir)]
              exact Nat.zero_le j)]
        rfl
  · -- pending receive frames
    intro i k hk
    rw [commitPair_rxrings, commitPair_rxrings, commitPair_pool,
      commitPair_pool]
    rw [commitPair_rxrings] at hk
    by_cases hii : si = i
    · subst hii
      rw [getD_set_self _ _ _ _ hsiB] at hk
      rw [getD_set_self _ _ _ _ hsi, getD_set_self _ _ _ _ hsiB]
      refine rel'.hpend k ?_
      have hsp' : nm_ring_space
          { B.rxrings.getD si default with
            slot := (pairRun p false B si di).rxslots,
            head := (pairRun p false B si di).rxhead,
            cur := (pairRun p false B si di).rxhead } =
          spaceOf (B.rxrings.getD si default).num_slots
            (pairRun p false B si di).rxhead
            (B.rxrings.getD si default).tail := rfl
      rw [hsp'] at hk
      have htots : (pairRun p true A si di).tot =
          (pairRun p false B si di).tot := rel'.htot
      have htot0 : A.tot = B.tot := rel.htot
      omega
    · rw [getD_set_ne _ _ _ _ _ hii] at hk
      rw [getD_set_ne _ _ _ _ _ hii, getD_set_ne _ _ _ _ _ hii]
      rw [pairRun_pool_zc]
      by_cases hir : i < B.rxrings.length
      · have hsh := rel.hshapeB (B.rxrings.getD i default)
          (List.mem_append_left _ (getD_mem _ _ default hir))
        have hpos : ((B.rxrings.getD i default).head + k) %
            (B.rxrings.getD i default).num_slots <
            (B.rxrings.getD i default).slot.length := by
          rw [hsh.1]
          exact Nat.mod_lt _ (by omega)
        have hmem : ((B.rxrings.getD i default).slot.getD
            (((B.rxrings.getD i default).head + k) %
              (B.rxrings.getD i default).num_slots) default).buf_idx ∈
            ((B.rxrings ++ B.txrings).getD i default).slot.map
              NetmapSlot.buf_idx := by
          rw [List.getD_append _ _ _ _ hir]
          exact List.mem_map_of_mem _ (getD_mem _ _ _ hpos)
        have hd := blocks_disjoint B rel.hnodupB i
          (B.rxrings.length + di) (by simp; omega) (by simp; omega)
          (by omega) _ hmem
        rw [List.getD_append_right _ _ _ _ (by omega),
          Nat.add_sub_cancel_left] at hd
        rw [pairRun_pool_frame p B si di hTB.1 hTB.2.1 _ hd]
        exact rel.hpend i k hk
      · exfalso
        have h0 : nm_ring_space (B.rxrings.getD i default) = 0 := by
          rw [List.getD_eq_default _ _ (Nat.le_of_not_lt hir)]
          rfl
        omega
  · -- receive lengths bounded by buffer size
    intro i j
    rw [commitPair_rxrings]
    by_cases hii : si = i
    · subst hii
      rw [getD_set_self _ _ _ _ hsiB]
      exact rel'.hlenBS j
    · rw [getD_set_ne _ _ _ _ _ hii]
      exact rel.hlenBS i j
  · -- uniform pool
    rw [commitPair_pool]
    exact rel'.hunifB
  · -- handles resolve into the pool
    intro r hr
    rw [commitPair_rxrings, commitPair_txrings] at hr
    rw [commitPair_pool]
    rcases List.mem_append.1 hr with hm | hm
    · rcases List.mem_or_eq_of_mem_set hm with hold | hnew
      · intro s hs
        rw [pairRun_pool_length]
        exact rel.hrangeB _ (List.mem_append_left _ hold) s hs
      · subst hnew
        intro s hs
        exact rel'.hrangeB s (List.mem_append_left _ hs)
    · rcases List.mem_or_eq_of_mem_set hm with hold | hnew
      · intro s hs
        rw [pairRun_pool_length]
        exact rel.hrangeB _ (List.mem_append_right _ hold) s hs
      · subst hnew
        intro s hs
        exact rel'.hrangeB s (List.mem_append_right _ hs)
  · -- distinct handles
    rw [allBufIdx_commit_copy]
    exact rel.hnodupB

theorem outerCoupling (p BS : Nat) :
    ∀ fuel si di (A B : FwdState), FwdRel BS A B →
      (outerLoop p true fuel si di A = none ∧
        outerLoop p false fuel si di B = none) ∨
      (∃ A' B', outerLoop p true fuel si di A = some A' ∧
        outerLoop p false fuel si di B = some B' ∧ FwdRel BS A' B') := by
  intro fuel
  induction fuel with
  | zero => intro si di A B rel; exact Or.inl ⟨rfl, rfl⟩
  | succ fuel ih =>
    intro si di A B rel
    simp only [outerLoop]
    have hc : (si < A.rxrings.length ∧ di < A.txrings.length) ↔
        (si < B.rxrings.length ∧ di < B.txrings.length) := by
      rw [rel.hrxn, rel.htxn]
    have hsp_rx : nm_ring_space (A.rxrings.getD si default) =
        nm_ring_space (B.rxrings.getD si default) := by
      unfold nm_ring_space
      rw [rel.hrxnum si, rel.hrxhead si, rel.hrxtail si]
    have hsp_tx : nm_ring_space (A.txrings.getD di default) =
        nm_ring_space (B.txrings.getD di default) := by
      unfold nm_ring_space
      rw [rel.htxnum di, rel.htxhead di, rel.htxtail di]
    by_cases hcond : si < A.rxrings.length ∧ di < A.txrings.length
    · rw [if_pos hcond, if_pos (hc.1 hcond)]
      by_cases h0 : nm_ring_space (A.rxrings.getD si default) = 0
      · have h0B : nm_ring_space (B.rxrings.getD si default) = 0 := by
          rw [← hsp_rx]; exact h0
        rw [if_pos h0, if_pos h0B]
        exact ih (si + 1) di A B rel
      · have h0B : ¬ nm_ring_space (B.rxrings.getD si default) = 0 := by
          rw [← hsp_rx]; exact h0
        rw [if_neg h0, if_neg h0B]
        by_cases h1 : nm_ring_space (A.txrings.getD di default) = 0
        · have h1B : nm_ring_space (B.txrings.getD di default) = 0 := by
            rw [← hsp_tx]; exact h1
          rw [if_pos h1, if_pos h1B]
          exact ih si (di + 1) A B rel
        · have h1B : ¬ nm_ring_space (B.txrings.getD di default) = 0 := by
            rw [← hsp_tx]; exact h1
          rw [if_neg h1, if_neg h1B]
          exact ih si di _ _
            (commitCoupling p BS A B si di rel hcond.1 hcond.2)
    · rw [if_neg hcond, if_neg (fun hb => hcond (hc.2 hb))]
      exact Or.inr ⟨A, B, rfl, rfl, rel⟩

theorem FwdRel_refl_of_good (BS : Nat) (st : FwdState)
    (hgood : GoodState BS st) : FwdRel BS st st := by
  obtain ⟨hunif, hrings, hnodup⟩ := hgood
  refine ⟨rfl, rfl, rfl, rfl, fun i => rfl, fun i => rfl, fun i => rfl,
    fun i => rfl, fun i => rfl, fun i => rfl, fun i => rfl, fun i => rfl,
    ?_, ?_, fun i j => rfl, fun i j => rfl, fun i j => rfl,
    fun i k _ => rfl, ?_, hunif, ?_, hnodup⟩
  · intro r hr
    have h := hrings r hr
    exact ⟨h.2.2.1, h.1, h.2.1⟩
  · intro r hr
    have h := hrings r hr
    exact ⟨h.2.2.1, h.1, h.2.1⟩
  · intro i j
    by_cases hi : i < st.rxrings.length
    · by_cases hj : j < (st.rxrings.getD i default).slot.length
      · exact ((hrings _
          (List.mem_append_left _ (getD_mem _ _ default hi))).2.2.2 _
          (getD_mem _ _ default hj)).2
      · rw [List.getD_eq_default _ _ (Nat.le_of_not_lt hj)]
        exact Nat.zero_le BS
    · rw [List.getD_eq_default _ _ (Nat.le_of_not_lt hi)]
      rw [show ((default : NetmapRing)).slot = ([] : List NetmapSlot)
        from rfl, List.getD_nil]
      exact Nat.zero_le BS
  · intro r hr s hs
    exact ((hrings r hr).2.2.2 s hs).1


theorem ringCursors_eq (BS : Nat) (A B : FwdState) (rel : FwdRel BS A B) :
    ringCursors A = ringCursors B := by
  unfold ringCursors
  apply ext_getD _ _ ((0 : Nat), (0 : Nat))
  · simp [rel.hrxn, rel.htxn]
  · intro j
    have hA : (List.map (fun (r : NetmapRing) => (r.head, r.cur))
        (A.rxrings ++ A.txrings)).getD j ((0 : Nat), (0 : Nat)) =
        (((A.rxrings ++ A.txrings).getD j default).head,
          ((A.rxrings ++ A.txrings).getD j default).cur) :=
      @List.getD_map _ _ (A.rxrings ++ A.txrings) default j
        (fun r => (r.head, r.cur))
    have hB : (List.map (fun (r : NetmapRing) => (r.head, r.cur))
        (B.rxrings ++ B.txrings)).getD j ((0 : Nat), (0 : Nat)) =
        (((B.rxrings ++ B.txrings).getD j default).head,
          ((B.rxrings ++ B.txrings).getD j default).cur) :=
      @List.getD_map _ _ (B.rxrings ++ B.txrings) default j
        (fun r => (r.head, r.cur))
    rw [hA, hB]
    rcases Nat.lt_or_ge j A.rxrings.length with hj | hj
    · rw [List.getD_append _ _ _ _ hj,
        List.getD_append _ _ _ _ (by rw [← rel.hrxn]; exact hj)]
      rw [rel.hrxhead j, rel.hrxcur j]
    · rw [List.getD_append_right _ _ _ _ hj,
        List.getD_append_right _ _ _ _ (by rw [← rel.hrxn]; exact hj),
        rel.hrxn]
      rw [rel.htxhead _, rel.htxcur _]

theorem txObservable_eq (BS : Nat) (A B : FwdState) (rel : FwdRel BS A B) :
    txObservable A = txObservable B := by
  unfold txObservable
  apply ext_getD _ _ ([] : List (Nat × List Nat))
  · simp [rel.htxn]
  · intro i
    have hA : (List.map (fun (r : NetmapRing) => r.slot.map fun s =>
        (s.len, slotReadable A.pool s)) A.txrings).getD i
          ([] : List (Nat × List Nat)) =
        (A.txrings.getD i default).slot.map fun s =>
          (s.len, slotReadable A.pool s) :=
      @List.getD_map _ _ A.txrings default i
        (fun r => r.slot.map fun s => (s.len, slotReadable A.pool s))
    have hB : (List.map (fun (r : NetmapRing) => r.slot.map fun s =>
        (s.len, slotReadable B.pool s)) B.txrings).getD i
          ([] : List (Nat × List Nat)) =
        (B.txrings.getD i default).slot.map fun s =>
          (s.len, slotReadable B.pool s) :=
      @List.getD_map _ _ B.txrings default i
        (fun r => r.slot.map fun s => (s.len, slotReadable B.pool s))
    rw [hA, hB]
    apply ext_getD _ _ ((0 : Nat), ([] : List Nat))
    · rcases Nat.lt_or_ge i A.txrings.length with hi | hi
      · have hsA := rel.hshapeA (A.txrings.getD i default)
          (List.mem_append_right _ (getD_mem _ _ default hi))
        have hsB := rel.hshapeB (B.txrings.getD i default)
          (List.mem_append_right _
            (getD_mem _ _ default (by rw [← rel.htxn]; exact hi)))
        simp only [List.length_map]
        rw [hsA.1, hsB.1, rel.htxnum i]
      · rw [List.getD_eq_default _ _ hi,
          List.getD_eq_default _ _ (by rw [← rel.htxn]; exact hi)]
        rfl
    · intro j
      have hAj : ((A.txrings.getD i default).slot.map fun s =>
          (s.len, slotReadable A.pool s)).getD j
            ((0 : Nat), ([] : List Nat)) =
          (((A.txrings.getD i default).slot.getD j default).len,
            slotReadable A.pool
              ((A.txrings.getD i default).slot.getD j default)) :=
        @List.getD_map _ _ (A.txrings.getD i default).slot default j
          (fun s => (s.len, slotReadable A.pool s))
      have hBj : ((B.txrings.getD i default).slot.map fun s =>
          (s.len, slotReadable B.pool s)).getD j
            ((0 : Nat), ([] : List Nat)) =
          (((B.txrings.getD i default).slot.getD j default).len,
            slotReadable B.pool
              ((B.txrings.getD i default).slot.getD j default)) :=
        @List.getD_map _ _ (B.txrings.getD i default).slot default j
          (fun s => (s.len, slotReadable B.pool s))
      rw [hAj, hBj, rel.hlen_tx i j, rel.hread i j]

theorem observables_eq_of_rel (BS : Nat) (A B : FwdState)
    (rel : FwdRel BS A B) : observables A = observables B := by
  unfold observables
  rw [txObservable_eq BS A B rel, ringCursors_eq BS A B rel, rel.htot,
    rel.hfwd]

/-- Claim C2 amended: on every well-formed initial state — uniform
buffer sizes, valid ring cursors and slot arrays, slot lengths within
the buffer size, and pairwise distinct buffer handles (every slot owns
its own buffer, as netmap guarantees) — running the transfer engine
with zero-copy enabled and with it disabled produces the same
externally observable result: the same packet bytes readable through
the destination ring's slot buffers, the same lengths in the transmit
slots, and the same cursor and counter values; the modes differ only in
buffer handles, slot flags, and bytes outside the readable windows. -/
theorem C2_amended_zerocopy_equiv (st : FwdState) (p BS : Nat)
    (hgood : GoodState BS st) :
    observables (forward_pkts st p true) =
      observables (forward_pkts st p false) := by
  have rel0 := FwdRel_refl_of_good BS st hgood
  have hc := outerCoupling p BS (fwdFuel st) 0 0 st st rel0
  unfold forward_pkts
  rcases hc with ⟨hn1, hn2⟩ | ⟨A', B', h1, h2, relf⟩
  · rw [hn1, hn2]
  · rw [h1, h2]
    exact observables_eq_of_rel BS A' B' relf

/-- Witness for the amended C2 on the concrete well-formed two-packet
state `goodSt`. -/
theorem C2_amended_zerocopy_equiv_witness :
    observables (forward_pkts goodSt 53 true) =
      observables (forward_pkts goodSt 53 false) :=
  C2_amended_zerocopy_equiv goodSt 53 38 (by decide)
